import Mathlib

/-!
Verification of the InstaBrief document pipeline (FastAPI backend).

This file shallowly embeds the pure computational core of the repository's
route handlers and services and proves, or refutes, the specification's
claims about them.  Python strings are modelled as `List Char`; machine
floats (which Python uses in a handful of arithmetic expressions) are
modelled exactly, as IEEE-754 binary64 values represented by integer
mantissa/exponent pairs with round-to-nearest, ties-to-even; external
HTTP services and native libraries (gTTS, translation providers, PDF
parsers, MongoDB) are oracle parameters of the model.
-/

namespace InstaBrief

/-! ## Python string primitives -/

/-- Python `str` modelled as a list of characters. -/
abbrev PyStr := List Char

/-- Coerce a Lean string literal to the model type. -/
def ofLit (s : String) : PyStr := s.data

/-- Python whitespace characters recognised by `str.strip`, `str.split()`
and the regex class `\s` (ASCII part; the inputs in this file are ASCII). -/
def isPySpace (c : Char) : Bool :=
  c = ' ' || c = '\t' || c = '\n' || c = '\r' || c = '\x0b' || c = '\x0c'

/-- Python `str.strip()` with no argument: drop leading and trailing
whitespace. -/
def pyStrip (s : PyStr) : PyStr :=
  ((s.dropWhile isPySpace).reverse.dropWhile isPySpace).reverse

/-- Helper for `pySplitDotSpace`: `acc` holds the current token reversed. -/
def splitDSAux : PyStr → PyStr → List PyStr
  | acc, [] => [acc.reverse]
  | acc, '.' :: ' ' :: rest => acc.reverse :: splitDSAux [] rest
  | acc, c :: rest => splitDSAux (c :: acc) rest

/-- Python `text.split('. ')`: split on every non-overlapping occurrence of
the two-character separator, scanning left to right. -/
def pySplitDotSpace (s : PyStr) : List PyStr := splitDSAux [] s

/-- Python `sep.join(parts)`. -/
def pyJoin (sep : PyStr) : List PyStr → PyStr
  | [] => []
  | [x] => x
  | x :: y :: rest => x ++ sep ++ pyJoin sep (y :: rest)

/-- Helper for `pySplitWs`: accumulate the current word reversed. -/
def splitWsAux : PyStr → PyStr → List PyStr
  | acc, [] => if acc.isEmpty then [] else [acc.reverse]
  | acc, c :: rest =>
    if isPySpace c then
      if acc.isEmpty then splitWsAux [] rest else acc.reverse :: splitWsAux [] rest
    else splitWsAux (c :: acc) rest

/-- Python `text.split()` with no argument: split on whitespace runs,
discarding empty tokens. -/
def pySplitWs (s : PyStr) : List PyStr := splitWsAux [] s

/-- Python `str.lower()` (ASCII part). -/
def pyLower (s : PyStr) : PyStr := s.map Char.toLower

/-! ## The chunk-building loop of `documents.py` and `tts.py`

`translate_text`'s LibreTranslate stage (lines 191-205), its final MyMemory
stage (lines 258-273) and `MultilingualTTSService.synthesize_gtts`
(tts.py lines 121-142) all share the same greedy accumulation loop over
`text.split('. ')`: a sentence is appended to the current chunk while the
chunk (with a trailing `'. '`) stays within `limit` characters; otherwise
the current chunk is flushed (stripped) and a fresh chunk is started. -/

/-- One pass of the loop; the second argument is `current_chunk`. -/
def chunkLoop (limit : ℕ) : List PyStr → PyStr → List PyStr
  | [], cur => if cur.isEmpty then [] else [pyStrip cur]
  | s :: rest, cur =>
    if (cur ++ s ++ ofLit ". ").length ≤ limit then
      chunkLoop limit rest (cur ++ s ++ ofLit ". ")
    else
      if cur.isEmpty then chunkLoop limit rest (s ++ ofLit ". ")
      else pyStrip cur :: chunkLoop limit rest (s ++ ofLit ". ")

/-- The chunk list produced for a given text and size limit. -/
def chunkSplit (limit : ℕ) (text : PyStr) : List PyStr :=
  chunkLoop limit (pySplitDotSpace text) []

/-! ## The `/translate` endpoint (`documents.py` lines 137-317)

`translate_text` tries, in order: the Google Translate endpoint, MyMemory,
LibreTranslate (chunking text over 2000 characters with limit 1500), and
MyMemory again with 400-character chunks.  Each provider HTTP call is an
oracle `PyStr → Except Unit PyStr`: `.error ()` models a raised exception
(network failure, `raise_for_status`, JSON parse error), `.ok t` models a
response whose usable translated text is `t` (the empty string when the
provider answered but produced nothing, e.g. MyMemory `responseStatus ≠ 200`).
The query string is the argument, so the call log records which provider was
invoked on which text. -/

instance {ε α : Type} [DecidableEq ε] [DecidableEq α] : DecidableEq (Except ε α) :=
  fun x y =>
  match x, y with
  | .ok a, .ok b => if h : a = b then isTrue (by rw [h]) else isFalse (by simp [h])
  | .error a, .error b => if h : a = b then isTrue (by rw [h]) else isFalse (by simp [h])
  | .ok _, .error _ => isFalse (by simp)
  | .error _, .ok _ => isFalse (by simp)

/-- Identifies a provider HTTP call in the call log. -/
inductive ProviderCall where
  | google
  | mymemory
  | libre
deriving DecidableEq, Repr

/-- The three provider oracles of a translation request. -/
structure Providers where
  google : PyStr → Except Unit PyStr
  mymemory : PyStr → Except Unit PyStr
  libre : PyStr → Except Unit PyStr

/-- A FastAPI `HTTPException`, carrying its HTTP status code and detail. -/
structure HTTPExc where
  status : ℕ
  detail : PyStr
deriving DecidableEq, Repr

/-- Python truthiness check `if translated_text and len(translated_text.strip()) > 0`. -/
def usableText (t : PyStr) : Bool := !t.isEmpty && 0 < (pyStrip t).length

/-- The per-chunk translation loop shared (up to chunk size and provider) by
the LibreTranslate and final MyMemory stages: chunks are translated in
sequence; an exception aborts the stage; an empty per-chunk translation keeps
the original chunk.  Returns the call log of this stage and its outcome. -/
def translateChunksLog (p : ProviderCall) (call : PyStr → Except Unit PyStr) :
    List PyStr → List (ProviderCall × PyStr) × Except Unit (List PyStr)
  | [] => ([], .ok [])
  | c :: rest =>
    match call c with
    | .error e => ([(p, c)], .error e)
    | .ok t =>
      let (log, r) := translateChunksLog p call rest
      ((p, c) :: log, r.map (fun ts => (if t.isEmpty then c else t) :: ts))

/-- The LibreTranslate stage: texts over 2000 characters are chunked with
limit 1500 and translated chunk by chunk (results joined with a space);
shorter texts are translated in one call. -/
def libreStage (P : Providers) (text : PyStr) :
    List (ProviderCall × PyStr) × Except Unit PyStr :=
  if 2000 < text.length then
    let (log, r) := translateChunksLog .libre P.libre (chunkSplit 1500 text)
    (log, r.map (pyJoin (ofLit " ")))
  else
    match P.libre text with
    | .error e => ([(.libre, text)], .error e)
    | .ok t => ([(.libre, text)], .ok t)

/-- The final MyMemory stage (`translate_chunks` with `chunk_size=400`). -/
def mymemoryChunkStage (P : Providers) (text : PyStr) :
    List (ProviderCall × PyStr) × Except Unit PyStr :=
  let (log, r) := translateChunksLog .mymemory P.mymemory (chunkSplit 400 text)
  (log, r.map (pyJoin (ofLit " ")))

/-- Result of the endpoint model: the HTTP outcome plus the full provider
call log, in order. -/
structure TransResult where
  result : Except HTTPExc PyStr
  calls : List (ProviderCall × PyStr)
deriving DecidableEq, Repr

/-- The body of `translate_text` (the code inside its outer `try`): the
four-stage waterfall, ending in `raise HTTPException(503, ...)` when no
stage produced a usable text. -/
def translateBody (P : Providers) (text : PyStr) : TransResult :=
  -- First try: Google Translate API
  let g := P.google text
  let gLog := [(ProviderCall.google, text)]
  match g with
  | .ok t =>
    if usableText t then ⟨.ok t, gLog⟩
    else translateBodyAfterGoogle P text gLog
  | .error _ => translateBodyAfterGoogle P text gLog
where
  /-- Stages 2-4 after the Google stage failed or returned unusable text. -/
  translateBodyAfterGoogle (P : Providers) (text : PyStr)
      (log : List (ProviderCall × PyStr)) : TransResult :=
    -- Second try: MyMemory API on the whole text
    let log := log ++ [(ProviderCall.mymemory, text)]
    match P.mymemory text with
    | .ok t =>
      if usableText t then ⟨.ok t, log⟩
      else translateBodyAfterMyMemory P text log
    | .error _ => translateBodyAfterMyMemory P text log
  /-- Stages 3-4 after the MyMemory stage failed or returned unusable text. -/
  translateBodyAfterMyMemory (P : Providers) (text : PyStr)
      (log : List (ProviderCall × PyStr)) : TransResult :=
    -- Third try: LibreTranslate (with chunking over 2000 characters)
    let (lLog, lr) := libreStage P text
    let log := log ++ lLog
    match lr with
    | .ok t =>
      if usableText t then ⟨.ok t, log⟩
      else translateBodyFinal P text log
    | .error _ => translateBodyFinal P text log
  /-- The final MyMemory-with-chunking stage, then the 503 raise. -/
  translateBodyFinal (P : Providers) (text : PyStr)
      (log : List (ProviderCall × PyStr)) : TransResult :=
    let (mLog, mr) := mymemoryChunkStage P text
    let log := log ++ mLog
    match mr with
    | .ok t =>
      if usableText t then ⟨.ok t, log⟩
      else ⟨.error ⟨503, ofLit "All translation services unavailable"⟩, log⟩
    | .error _ => ⟨.error ⟨503, ofLit "All translation services unavailable"⟩, log⟩

/-- String representation of a Starlette `HTTPException`
(`f"{status_code}: {detail}"`). -/
def strOfHTTPExc (e : HTTPExc) : PyStr :=
  ofLit (toString e.status) ++ ofLit ": " ++ e.detail

/-- The full `translate_text` endpoint: the body runs inside
`try ... except requests.exceptions.RequestException ... except Exception`,
and the only exception that can escape the body is the deliberately raised
`HTTPException(503)` (each provider stage catches its own exceptions).  An
`HTTPException` is not a `RequestException`, so the generic handler converts
it into `HTTPException(500, f"Translation failed: {str(e)}")`. -/
def translate_text (P : Providers) (text : PyStr) : TransResult :=
  let r := translateBody P text
  match r.result with
  | .ok t => ⟨.ok t, r.calls⟩
  | .error e =>
    ⟨.error ⟨500, ofLit "Translation failed: " ++ strOfHTTPExc e⟩, r.calls⟩

/-! ## `MultilingualTTSService` (`tts.py`)

gTTS synthesis is an external HTTP engine; it is modelled by a total oracle
`synth : PyStr → α` producing an opaque audio value for a given text (the
model does not represent gTTS failures: the claims under study concern the
chunking and truncation behaviour on the success path).  `synthesize_gtts`
returns, alongside the audio, the list of texts it synthesized, in order. -/

/-- The language-code normalization of `normalize_language_code`, needed
only to keep `synthesize_gtts` faithful; lang handling does not affect the
chunking claims.  Regional variants map to their base language; unsupported
codes fall back to English. -/
def gttsLanguages : List PyStr :=
  [ofLit "en", ofLit "es", ofLit "fr", ofLit "de", ofLit "it", ofLit "pt",
   ofLit "ru", ofLit "zh", ofLit "ja", ofLit "ko", ofLit "ar", ofLit "hi"]

/-- Split at the first `'-'` (Python `lang_code.split('-')[0]`). -/
def baseLangAux : PyStr → PyStr
  | [] => []
  | '-' :: _ => []
  | c :: rest => c :: baseLangAux rest

/-- The list of regional variants handled by `regional_variants` all map to
their base code, so `normalize_language_code` reduces to: empty → `"en"`;
known regional variant or supported base language → base code; otherwise
`"en"`. -/
def normalize_language_code (lang : PyStr) : PyStr :=
  if lang.isEmpty then ofLit "en"
  else
    let base := pyLower (baseLangAux lang)
    if base ∈ gttsLanguages then base else ofLit "en"

/-- Result of `synthesize_gtts`: the returned audio plus the log of texts
passed to the gTTS engine. -/
structure GttsResult (α : Type) where
  audio : α
  synthesized : List PyStr

/-- Model of `synthesize_gtts` (tts.py lines 107-153): texts of at most
5000 characters go to gTTS in one call; longer texts are chunked by the
greedy `'. '` loop (`chunkSplit 5000`), every chunk is synthesized, and
only the first chunk's audio is returned (`audio_chunks[0]`, or `b''`
when the chunk list is empty, which cannot happen). -/
def synthesize_gtts {α : Type} (synth : PyStr → α) (emptyAudio : α)
    (text : PyStr) : GttsResult α :=
  if text.length ≤ 5000 then
    ⟨synth text, [text]⟩
  else
    let chunks := chunkSplit 5000 text
    ⟨(chunks.map synth).headD emptyAudio, chunks⟩

/-- The text-preparation step of `synthesize` (tts.py lines 167-173): a
`ValueError` on empty or whitespace-only input, otherwise `text.strip()`
truncated to its first 10000 characters plus `"..."` when the stripped
text exceeds 10000 characters. -/
def synthesizePrepare (text : PyStr) : Except Unit PyStr :=
  if text.isEmpty || (pyStrip text).isEmpty then .error ()
  else
    let t := pyStrip text
    .ok (if 10000 < t.length then t.take 10000 ++ ofLit "..." else t)

/-- Model of `synthesize` (tts.py lines 155-189): prepare the text, then
synthesize via gTTS. -/
def synthesize {α : Type} (synth : PyStr → α) (emptyAudio : α)
    (text : PyStr) : Except Unit (GttsResult α) :=
  (synthesizePrepare text).map (synthesize_gtts synth emptyAudio)

/-! ## `NLPService` and `StorageService.save_article`

`NLPService.__init__` hard-codes `self.nltk_available = False`, so
`extract_keywords` always takes the fallback branch: lowercase
whitespace-split tokens, filtered by `isalnum`, a fixed 14-word stopword
set and length > 2, ranked by frequency (`Counter.most_common`, which
orders equal counts by first encounter). -/

/-- Python `str.isalnum()` (ASCII part). -/
def pyIsAlnum (w : PyStr) : Bool := !w.isEmpty && w.all Char.isAlphanum

/-- Python `str.isalpha()` (ASCII part). -/
def pyIsAlpha (w : PyStr) : Bool := !w.isEmpty && w.all Char.isAlpha

/-- Deduplicate keeping first occurrences (Python dict/Counter key order). -/
def dedupFirstAux : List PyStr → List PyStr → List PyStr
  | _, [] => []
  | seen, x :: xs =>
    if x ∈ seen then dedupFirstAux seen xs else x :: dedupFirstAux (x :: seen) xs

/-- First-occurrence-ordered list of distinct elements. -/
def dedupFirst (l : List PyStr) : List PyStr := dedupFirstAux [] l

/-- Stable descending insertion by key (the behaviour of Python's stable
sort with `reverse=True`, and of `Counter.most_common`): an element is
placed before the first element with a strictly smaller key, after all
elements with a greater-or-equal key. -/
def insertDescBy {α β : Type} [LinearOrder β] (key : α → β) (x : α) :
    List α → List α
  | [] => [x]
  | y :: ys => if key y < key x then x :: y :: ys else y :: insertDescBy key x ys

/-- Stable descending sort by key. -/
def sortDescBy {α β : Type} [LinearOrder β] (key : α → β) (l : List α) :
    List α :=
  l.foldl (fun acc x => insertDescBy key x acc) []

/-- Python `Counter(l).most_common(n)`: pairs `(element, count)` sorted by
count descending, ties in first-encounter order, truncated to `n`. -/
def mostCommon (n : ℕ) (l : List PyStr) : List (PyStr × ℕ) :=
  (sortDescBy (fun p => p.2) ((dedupFirst l).map (fun w => (w, l.count w)))).take n

/-- The stopword set of `NLPService.extract_keywords`'s fallback branch. -/
def nlpStopwords : List PyStr :=
  [ofLit "the", ofLit "a", ofLit "an", ofLit "and", ofLit "or", ofLit "but",
   ofLit "in", ofLit "on", ofLit "at", ofLit "to", ofLit "for", ofLit "of",
   ofLit "with", ofLit "by"]

/-- `NLPService.extract_keywords(text, num_keywords=10)` with
`nltk_available = False` (as set by `__init__`). -/
def nlpExtractKeywords (text : PyStr) (numKeywords : ℕ) : List PyStr :=
  let tokens := pySplitWs (pyLower text)
  let keywords := tokens.filter
    (fun w => pyIsAlnum w && decide (w ∉ nlpStopwords) && decide (2 < w.length))
  (mostCommon numKeywords keywords).map (fun p => p.1)

/-- An article document as far as `save_article` reads and writes it. -/
structure Article where
  title : Option PyStr
  content : Option PyStr
  keywords : List PyStr
  hasEmbedding : Bool
deriving DecidableEq

/-- What the user-preference lookup inside `save_article` can observe:
no `user_id` was passed; the lookup raised; the user document was missing
or had no `preferences` key; or a preferences dict that may or may not
contain `auto_generate_tags`. -/
inductive UserPrefLookup where
  | noUser
  | dbError
  | noPreferences
  | preferences (autoGenerateTags : Option Bool)
deriving DecidableEq

/-- The `should_generate_tags` flag computed by `save_article`
(storage.py lines 52-62): `True` by default, `user_doc["preferences"]
.get("auto_generate_tags", True)` when a user with preferences is found,
`True` again on any lookup error. -/
def shouldGenerateTags : UserPrefLookup → Bool
  | .noUser => true
  | .dbError => true
  | .noPreferences => true
  | .preferences o => o.getD true

/-- The text handed to keyword extraction:
`(article.get("title") or "") + "\n" + (article.get("content") or "")`. -/
def articleText (a : Article) : PyStr :=
  a.title.getD [] ++ ofLit "\n" ++ a.content.getD []

/-- Model of `StorageService.save_article` (storage.py lines 47-73) up to
the MongoDB insert: the article with its `keywords` and `embedding` fields
set.  The embedding is always computed; keywords only when the gate is on. -/
def save_article (a : Article) (lookup : UserPrefLookup) : Article :=
  { a with
    keywords :=
      if shouldGenerateTags lookup then nlpExtractKeywords (articleText a) 10
      else []
    hasEmbedding := true }

/-! ## `KeywordExtractor` (`keyword_extractor.py`)

The claim under study fixes KeyBERT, YAKE, sklearn and NLTK all unavailable,
so `extract_keywords(text, num_keywords, method="auto")` resolves to the
frequency fallback `_extract_frequency`.  Scores are Python floats
`freq / max_freq` (and `* 0.8` for bigrams); the model carries the exact
rational value instead — only the relative order of scores is ever used,
and the inputs in this file produce no float-rounding collisions. -/

/-- The regex class `\w` (ASCII part): letters, digits and underscore. -/
def isWordChar (c : Char) : Bool := c.isAlphanum || c = '_'

/-- The substitution `re.sub(r'[^\w\s]', ' ', text)`: the pattern matches a
single character, so the substitution is a character-wise map. -/
def scrubPunct (s : PyStr) : PyStr :=
  s.map (fun c => if !(isWordChar c || isPySpace c) then ' ' else c)

/-- The basic stopword fallback `_get_basic_stopwords` (keyword_extractor.py
lines 303-317), used since NLTK is unavailable. -/
def basicStopwords : List PyStr :=
  ([ "a", "an", "and", "are", "as", "at", "be", "by", "for", "from",
     "has", "he", "in", "is", "it", "its", "of", "on", "that", "the",
     "to", "was", "will", "with", "would", "you", "your", "this", "they",
     "we", "or", "but", "not", "have", "had", "can", "could", "should",
     "may", "might", "must", "shall", "do", "does", "did", "been", "being",
     "i", "me", "my", "myself", "our", "ours", "ourselves", "him", "his",
     "himself", "she", "her", "hers", "herself", "them", "their", "theirs",
     "themselves", "what", "which", "who", "whom", "whose", "where", "when",
     "why", "how", "all", "any", "both", "each", "few", "more", "most",
     "other", "some", "such", "no", "nor", "only", "own", "same", "so",
     "than", "too", "very", "just", "now", "also", "here", "there", "then"
   ] : List String).map ofLit

/-- The filtered word list of `_extract_frequency`: lowercase the text,
blank out punctuation, split on whitespace, keep alphabetic words longer
than 2 characters that are not stopwords. -/
def freqFilteredWords (text : PyStr) : List PyStr :=
  (pySplitWs (scrubPunct (pyLower text))).filter
    (fun w => decide (2 < w.length) && pyIsAlpha w &&
      decide (w ∉ basicStopwords))

/-- The 2-grams of the filtered word list, kept when longer than 5
characters (`len(bigram) > 5`). -/
def freqBigrams : List PyStr → List PyStr
  | w1 :: w2 :: rest =>
    let b := w1 ++ ofLit " " ++ w2
    (if 5 < b.length then [b] else []) ++ freqBigrams (w2 :: rest)
  | _ => []

/-- Python `max(counter.values()) if counter else 1`. -/
def maxFreq (l : List PyStr) : ℕ :=
  if l.isEmpty then 1 else ((dedupFirst l).map (fun w => l.count w)).foldr max 0

/-- A `(keyword, score)` entry of the extractor's result. -/
abbrev Keyword := PyStr × ℚ

/-- `KeywordExtractor._extract_frequency` (keyword_extractor.py lines
229-301): top unigrams scored `freq / max_unigram_freq`, top
`num_keywords // 2` bigrams scored `freq / max_bigram_freq * 0.8`, merged,
sorted by score descending (stable) and truncated to `num_keywords`. -/
def extractFrequency (text : PyStr) (numKeywords : ℕ) : List Keyword :=
  let words := freqFilteredWords text
  let bigrams := freqBigrams words
  let maxU := maxFreq words
  let maxB := maxFreq bigrams
  let unigramEntries : List Keyword :=
    (mostCommon numKeywords words).map (fun p => (p.1, mkRat p.2 maxU))
  let bigramEntries : List Keyword :=
    (mostCommon (numKeywords / 2) bigrams).map
      (fun p => (p.1, mkRat (p.2 * 4) (maxB * 5)))
  (sortDescBy (fun k => k.2) (unigramEntries ++ bigramEntries)).take numKeywords

/-- `KeywordExtractor.extract_keywords(text, num_keywords, "auto")` with
KeyBERT, YAKE, sklearn and NLTK all unavailable (keyword_extractor.py lines
95-138): the guard returns `[]` for missing or sub-10-character text, and
`method` resolves to `"frequency"`. -/
def extract_keywords (text : PyStr) (numKeywords : ℕ) : List Keyword :=
  if text.isEmpty || (pyStrip text).length < 10 then []
  else extractFrequency text numKeywords

/-! ## Exact IEEE-754 binary64 emulation

A few expressions in `documents.py` mix integers with Python floats:

* `generate_summary`: `int(min_words + (length / 100.0) * (max_words - min_words))`
  and `int(total_words * 0.8)`;
* `upload_document`: `int(base_length * (summary_length / 100.0) * 2)`.

CPython floats are IEEE-754 binary64 with round-to-nearest, ties-to-even;
the model computes each elementary operation exactly on integer
mantissa/exponent pairs.  (All quantities here are positive and far inside
the normal range, so neither subnormals nor overflow can occur.)  The claim
C1 in fact *fails* through this rounding, at percentage 57. -/

/-- Bit length of a natural number, by fuel-bounded halving; `bitLenF f n`
is correct for `n < 2 ^ f` and fuel 512 covers every magnitude in this
file.  (Fuel keeps the definition kernel-reducible.) -/
def bitLenF : ℕ → ℕ → ℕ
  | 0, _ => 0
  | f + 1, n => if n = 0 then 0 else bitLenF f (n / 2) + 1

/-- Bit length: `bitLen 0 = 0` and `2 ^ (bitLen n - 1) ≤ n < 2 ^ bitLen n`
for `0 < n < 2 ^ 128` (no quantity in this file comes near `2 ^ 128`). -/
def bitLen (n : ℕ) : ℕ := bitLenF 128 n

/-- Decides `2 ^ L ≤ n / d` for a positive fraction, by clearing the
(sign-dependent) power into whichever side keeps everything natural. -/
def qlePow2 (L : ℤ) (n d : ℕ) : Bool :=
  d * 2 ^ L.toNat ≤ n * 2 ^ (-L).toNat

/-- Binade of the positive fraction `n / d`: the unique `L` with
`2 ^ L ≤ n / d < 2 ^ (L + 1)`.  The bit-length difference is either the
answer or one too large. -/
def ratLog2 (n d : ℕ) : ℤ :=
  let L0 : ℤ := (bitLen n : ℤ) - (bitLen d : ℤ)
  if qlePow2 L0 n d then L0 else L0 - 1

/-- Round the fraction `N / D` (with `D > 0`) to the nearest natural
number, ties to even. -/
def rneNat (N D : ℕ) : ℕ :=
  let q := N / D
  let r := N % D
  if 2 * r < D then q
  else if D < 2 * r then q + 1
  else if q % 2 = 0 then q else q + 1

/-- A positive binary64 value, as `mantissa * 2 ^ exponent` with the
mantissa a natural number (zero for the value 0.0; `2^52 ≤ m < 2^53` when
produced by rounding a positive value). -/
abbrev PFloat := ℕ × ℤ

/-- The rational value of a `PFloat`. -/
def pfVal (p : PFloat) : ℚ := (p.1 : ℚ) * 2 ^ p.2

/-- Round the nonnegative fraction `n / d` (with `d > 0`) to the nearest
binary64 value: scale into the binade `[2^52, 2^53)`, round the mantissa
to nearest-even, keep the exponent. -/
def dround (n d : ℕ) : PFloat :=
  if n = 0 then (0, 0)
  else
    let L := ratLog2 n d
    let shift : ℤ := 52 - L
    (rneNat (n * 2 ^ shift.toNat) (d * 2 ^ (-shift).toNat), L - 52)

/-- Python `float(n)` for a natural number (exact for `n ≤ 2 ^ 53`;
rounded beyond, just like CPython). -/
def pfOfNat (n : ℕ) : PFloat := dround n 1

/-- Correctly rounded product of two `PFloat`s (the exact product is a
dyadic fraction, re-rounded to 53 bits). -/
def pfMul (p q : PFloat) : PFloat :=
  let e := p.2 + q.2
  dround (p.1 * q.1 * 2 ^ e.toNat) (2 ^ (-e).toNat)

/-- Correctly rounded product with an integer (Python `float * int`
converts the integer exactly first; for the magnitudes in this file the
conversion is exact, so a single rounding happens). -/
def pfScale (p : PFloat) (k : ℕ) : PFloat :=
  pfMul p (pfOfNat k)

/-- Correctly rounded sum `k + p` of an exactly-converted natural and a
`PFloat` (Python `int + float` with the int below `2 ^ 53`). -/
def pfAddNat (k : ℕ) (p : PFloat) : PFloat :=
  dround (k * 2 ^ (-p.2).toNat + p.1 * 2 ^ p.2.toNat) (2 ^ (-p.2).toNat)

/-- Python `int(x)` for a nonnegative float: truncation = floor. -/
def pfFloor (p : PFloat) : ℕ :=
  if 0 ≤ p.2 then p.1 * 2 ^ p.2.toNat else p.1 / 2 ^ (-p.2).toNat

/-! ## The extractive-percentage target of `generate_summary`
(`documents.py` lines 1254-1272)

`generate_summary(text, "extractive", length)` computes
`percentage_decimal = length / 100.0`,
`target_words = int(min_words + percentage_decimal * (max_words - min_words))`
with `min_words = 50`, `max_words = 750`, then caps it:
`target_words = min(target_words, int(total_words * 0.8))`. -/

/-- The uncapped target: `int(50 + (p / 100.0) * 700)` in binary64. -/
def pyRawTarget (p : ℕ) : ℕ :=
  pfFloor (pfAddNat 50 (pfScale (dround p 100) 700))

/-- The cap: `int(total_words * 0.8)` in binary64 (`0.8` is itself the
rounded double nearest to 4/5). -/
def pyCap (totalWords : ℕ) : ℕ :=
  pfFloor (pfMul (pfOfNat totalWords) (dround 4 5))

/-- The extractive target word count computed by `generate_summary`:
uncapped target capped by 80% of the source word count. -/
def extractiveTargetWords (p totalWords : ℕ) : ℕ :=
  min (pyRawTarget p) (pyCap totalWords)

/-! ## The `/upload` endpoint (`documents.py` lines 430-790)

External effects are oracle parameters: the PDF/DOCX/PPTX extraction
libraries, the summarizer service, keyword extraction, MongoDB, the
generated UUID, and Python's `set(...)` iteration order (which is
hash-dependent).  The `.txt` branch's `bytes.decode` chain cannot fail
(its last fallback uses `errors='replace'`), so the decoded text is the
model's file-content parameter.  `asyncio` timeouts appear as oracle
outcomes (`.error` of the corresponding call, or `StorageOutcome.timeout`,
or the `overallTimeout` flag for the outer summary `wait_for`). -/

/-- The extraction routine (or `.txt` decode branch) invoked for a file. -/
inductive Extractor where
  | pdf
  | docx
  | pptx
  | txtDecode
deriving DecidableEq, Repr

/-- Outcome of the MongoDB `save_document` call with its 10-second timeout. -/
inductive StorageOutcome where
  | saved (id : PyStr)
  | timeout
  | failed
deriving DecidableEq

/-- The oracles of one upload request. -/
structure UploadEnv where
  pdfExtract : PyStr → Except Unit PyStr
  docxExtract : PyStr → Except Unit PyStr
  pptxExtract : PyStr → Except Unit PyStr
  summarizerAvailable : Bool
  summarize : PyStr → ℕ → Except Unit PyStr
  multilingualAbstractive : PyStr → ℕ → Except Unit (Option PyStr)
  overallTimeout : Bool
  kwExtract : PyStr → ℕ → Except Unit (List PyStr)
  setOrder : List PyStr → List PyStr
  storage : StorageOutcome
  newDocId : PyStr

/-- Last index of a character in a string (Python `str.rfind`, as an
`Option` instead of `-1`). -/
def rfindChar (c : Char) (s : PyStr) : Option ℕ :=
  match s.reverse.findIdx? (· = c) with
  | none => none
  | some i => some (s.length - 1 - i)

/-- The extension part of `os.path.splitext(p)`: the suffix from the last
dot, provided that dot comes after the last path separator and the
basename does not consist solely of dots up to it (so `.bashrc` has no
extension). -/
def splitextExt (p : PyStr) : PyStr :=
  let sepIndex : ℤ := match rfindChar '/' p with | none => -1 | some i => i
  let dotIndex : ℤ := match rfindChar '.' p with | none => -1 | some i => i
  if sepIndex < dotIndex &&
      ((p.drop (sepIndex + 1).toNat).take (dotIndex - (sepIndex + 1)).toNat).any
        (· ≠ '.') then
    p.drop dotIndex.toNat
  else []

/-- The allowed upload extensions (`allowed_types`). -/
def allowedTypes : List PyStr :=
  [ofLit ".pdf", ofLit ".docx", ofLit ".txt", ofLit ".pptx"]

/-- The error body returned for an unsupported extension:
`{"error": f"Unsupported file type: {file_ext}. Allowed types: {allowed_types}"}`. -/
def unsupportedTypeMsg (fileExt : PyStr) : PyStr :=
  ofLit "Unsupported file type: " ++ fileExt ++
    ofLit ". Allowed types: ['.pdf', '.docx', '.txt', '.pptx']"

/-- The human-readable placeholder paragraph substituted when PDF
extraction fails (the analogous DOCX/PPTX texts differ only in wording;
none of the claims inspects their content). -/
def extractionErrorText (kind filename : PyStr) (size : ℕ) : PyStr :=
  ofLit "\n" ++ kind ++ ofLit " Extraction Error for \"" ++ filename ++
    ofLit "\":\n\nThe file could not be processed automatically.\n\nFilename: " ++
    filename ++ ofLit "\nFile size: " ++ ofLit (toString size) ++ ofLit " bytes\n"

/-- One library-backed extraction branch of `extract_text_with_timeout`:
run the library (timeout = exception), then reject results whose stripped
text is shorter than 50 characters; any failure yields the placeholder
paragraph instead of an error. -/
def extractBranch (kind filename : PyStr) (extract : PyStr → Except Unit PyStr)
    (contents : PyStr) : PyStr :=
  match extract contents with
  | .error _ => extractionErrorText kind filename contents.length
  | .ok t =>
    if (pyStrip t).isEmpty || (pyStrip t).length < 50 then
      extractionErrorText kind filename contents.length
    else t

/-- `extract_text_with_timeout` once the extension is known to be allowed:
the `.txt` branch decodes and applies no minimum-length check. -/
def extractText (env : UploadEnv) (fileExt filename contents : PyStr) :
    PyStr × List Extractor :=
  if fileExt = ofLit ".pdf" then
    (extractBranch (ofLit "PDF") filename env.pdfExtract contents, [.pdf])
  else if fileExt = ofLit ".docx" then
    (extractBranch (ofLit "DOCX") filename env.docxExtract contents, [.docx])
  else if fileExt = ofLit ".pptx" then
    (extractBranch (ofLit "PPTX") filename env.pptxExtract contents, [.pptx])
  else
    (contents, [.txtDecode])

/-- The `max_length` computation of `upload_document` (lines 632-635):
`base_length = max(150, min(500, len(text_content) // 10))`, then
`max_length = int(base_length * (summary_length / 100.0) * 2)` in binary64,
clamped into `[100, 800]`. -/
def uploadMaxLength (textLen summaryLength : ℕ) : ℕ :=
  let baseLength := max 150 (min 500 (textLen / 10))
  let m := pfFloor (pfScale (pfMul (pfOfNat baseLength) (dround summaryLength 100)) 2)
  max 100 (min 800 m)

/-- `generate_fallback_summary` (documents.py lines 1458-1488). -/
def generate_fallback_summary (text : PyStr) (maxLength : ℕ) : PyStr :=
  let words := pySplitWs text
  let target := max (min (maxLength / 4) (min (words.length / 5) 100)) 20
  if words.length ≤ target then pyStrip text
  else
    let truncated := pyJoin (ofLit " ") (words.take target)
    let lastPeriod : ℤ := match rfindChar '.' truncated with
      | none => -1
      | some i => i
    if truncated.length / 2 < lastPeriod then
      pyStrip (truncated.take (lastPeriod + 1).toNat)
    else pyStrip (truncated ++ ofLit "...")

/-- `generate_summaries_with_timeout` (lines 640-710): extractive summary
via the summarizer service, abstractive via the multilingual service with
fallback to the extractive text; every failure path (service missing,
exception, inner timeout, outer `wait_for` timeout) degrades to
`generate_fallback_summary`, never to an error.  Returns the pair together
with whether the summarizer service itself was reached. -/
def summariesStage (env : UploadEnv) (text : PyStr) (maxLen : ℕ) :
    (PyStr × PyStr) × Bool :=
  if env.overallTimeout then
    let fb := generate_fallback_summary text maxLen
    ((fb, fb), false)
  else if !env.summarizerAvailable then
    let fb := generate_fallback_summary text maxLen
    ((fb, fb), false)
  else
    match env.summarize text maxLen with
    | .error _ =>
      let fb := generate_fallback_summary text maxLen
      ((fb, fb), true)
    | .ok extractive =>
      match env.multilingualAbstractive text maxLen with
      | .ok (some ab) => ((extractive, ab), true)
      | .ok none => ((extractive, extractive), true)
      | .error _ => ((extractive, extractive), true)

/-- Python `str.title()` (ASCII part). -/
def pyTitleAux : Bool → PyStr → PyStr
  | _, [] => []
  | prevAlpha, c :: rest =>
    if c.isAlpha then
      (if prevAlpha then c.toLower else c.toUpper) :: pyTitleAux true rest
    else c :: pyTitleAux false rest

/-- Python `str.title()`. -/
def pyTitle (s : PyStr) : PyStr := pyTitleAux false s

/-- Python `needle in haystack` on strings: substring containment. -/
def pySubstr (needle haystack : PyStr) : Bool := decide (needle <:+: haystack)

/-- The fixed keyword list scanned by `generate_tags`. -/
def businessKeywords : List PyStr :=
  ([ "business", "report", "analysis", "strategy", "performance",
     "financial", "quarterly", "annual" ] : List String).map ofLit

/-- `generate_tags` (documents.py lines 1396-1420); `setOrder` supplies the
iteration order of Python's hash-based `set`. -/
def generate_tags (setOrder : List PyStr → List PyStr) (text filename : PyStr) :
    List PyStr :=
  let nameParts := pySplitWs
    ((pyLower filename).map (fun c => if c = '.' || c = '_' || c = '-' then ' ' else c))
  let fromName := (nameParts.filter (fun p => decide (2 < p.length))).map pyTitle
  let textLower := pyLower text
  let fromText := (businessKeywords.filter (fun k => pySubstr k textLower)).map pyTitle
  let unique := (setOrder (fromName ++ fromText)).take 5
  if unique.isEmpty then [ofLit "Document", ofLit "Analysis"] else unique

/-- The tag-generation block of `upload_document` (lines 716-733): AI
keywords (title-cased, first five) merged with filename tags through a
`set`, else the `generate_tags` fallback. -/
def tagsStage (env : UploadEnv) (text filename : PyStr) : List PyStr :=
  match env.kwExtract text 8 with
  | .ok kws =>
    let aiTags := (kws.take 5).map pyTitle
    let filenameTags := generate_tags env.setOrder text filename
    let allTags := (env.setOrder (aiTags ++ filenameTags)).take 8
    if allTags.isEmpty then [ofLit "Document", ofLit "Analysis"] else allTags
  | .error _ => generate_tags env.setOrder text filename

/-- The endpoint's JSON outcome, plus bookkeeping for the claims: which
extraction routines ran, and whether the summary stage was reached. -/
structure UploadResponse where
  status : ℕ
  errorField : Option PyStr
  content : Option PyStr
  summaryExtractive : Option PyStr
  summaryAbstractive : Option PyStr
  tags : List PyStr
  invoked : List Extractor
  sumStageReached : Bool
deriving DecidableEq

/-- Model of `upload_document`.  A plain `dict` return from a FastAPI
handler is serialized with HTTP status 200 — this includes the
`{"error": ...}` bodies, so the unsupported-extension path is a 200, not
a 4xx. -/
def upload_document (env : UploadEnv) (filename contents : PyStr)
    (summaryLength : ℕ) : UploadResponse :=
  let fileExt := pyLower (splitextExt filename)
  if fileExt ∉ allowedTypes then
    { status := 200, errorField := some (unsupportedTypeMsg fileExt),
      content := none, summaryExtractive := none, summaryAbstractive := none,
      tags := [], invoked := [], sumStageReached := false }
  else
    let (text, invoked) := extractText env fileExt filename contents
    let maxLen := uploadMaxLength text.length summaryLength
    let ((extractive, abstractive), _sumCalled) := summariesStage env text maxLen
    let tags := tagsStage env text filename
    match env.storage with
    | .timeout =>
      { status := 200,
        errorField := some (ofLit "Database operation timed out. Please try again."),
        content := none, summaryExtractive := none, summaryAbstractive := none,
        tags := [], invoked := invoked, sumStageReached := true }
    | _ =>
      { status := 200, errorField := none,
        content := some (if 500 < text.length then text.take 500 ++ ofLit "..." else text),
        summaryExtractive := some extractive,
        summaryAbstractive := some abstractive,
        tags := tags, invoked := invoked, sumStageReached := true }

/-! ## A small Python-regex interpreter

`clean_extracted_text`, `basic_text_cleaning` and `improve_text_formatting`
are long chains of `re.sub` calls.  The patterns they use need only:
literals (optionally `re.IGNORECASE`), single-character classes, greedy /
lazy / bounded repetition of a character class, concatenation, alternation
(preferring the left branch, as Python does), capture groups, and the word
boundary `\b`.  The interpreter below implements exactly Python's
semantics for these: leftmost match, preference-ordered backtracking, and
`re.sub`'s scan that resumes right after each replaced match (on the
original text).  The two constructs outside this fragment —
`(?<!\n)\n(?!\n)` and the anchored `^\n+` — are implemented as dedicated
functions next to their use sites. -/

/-- Regex abstract syntax (the fragment used by the cleaner). -/
inductive RE where
  | eps
  | lit (s : List Char) (ci : Bool)
  | cls (p : Char → Bool)
  | rep (p : Char → Bool) (lo : ℕ) (hi : Option ℕ) (lz : Bool)
  | seq (a b : RE)
  | alt (a b : RE)
  | grp (i : ℕ) (r : RE)
  | wb

/-- Character comparison, case-insensitively when `ci` is set. -/
def ciEq (ci : Bool) (a b : Char) : Bool :=
  if ci then a.toLower = b.toLower else a = b

/-- Match a literal; the continuation receives the last matched input
character (the new left context) and the remaining input. -/
def litMatch {α : Type} (ci : Bool) :
    List Char → Option Char → PyStr → (Option Char → PyStr → Option α) →
    Option α
  | [], prev, rest, k => k prev rest
  | _ :: _, _, [], _ =>
    -- the pattern continues but the input ended
    none
  | c :: cs, _, x :: xs, k =>
    if ciEq ci c x then litMatch ci cs (some x) xs k else none

/-- Try candidate repetition lengths in preference order; first success wins. -/
def firstSome {α : Type} : List ℕ → (ℕ → Option α) → Option α
  | [], _ => none
  | n :: ns, f =>
    match f n with
    | some a => some a
    | none => firstSome ns f

/-- The backtracking matcher, in continuation-passing style.  `prev` is the
original character just left of the current position (`none` at the start
of the string); captures are pushed as `(group index, captured text)`. -/
def matchRE {α : Type} :
    RE → Option Char → PyStr → List (ℕ × PyStr) →
    (Option Char → PyStr → List (ℕ × PyStr) → Option α) → Option α
  | .eps, prev, input, caps, k => k prev input caps
  | .lit s ci, prev, input, caps, k => litMatch ci s prev input (fun p r => k p r caps)
  | .cls p, _, input, caps, k =>
    match input with
    | [] => none
    | c :: rest => if p c then k (some c) rest caps else none
  | .rep p lo hi lz, prev, input, caps, k =>
    let run := (input.takeWhile p).length
    let maxN := match hi with | none => run | some h => min h run
    if maxN < lo then none
    else
      firstSome
        ((List.range (maxN - lo + 1)).map (fun i => if lz then lo + i else maxN - i))
        (fun n =>
          k (match (input.take n).getLast? with | some c => some c | none => prev)
            (input.drop n) caps)
  | .seq a b, prev, input, caps, k =>
    matchRE a prev input caps (fun p r c => matchRE b p r c k)
  | .alt a b, prev, input, caps, k =>
    match matchRE a prev input caps k with
    | some x => some x
    | none => matchRE b prev input caps k
  | .grp i r, prev, input, caps, k =>
    matchRE r prev input caps
      (fun p rest c => k p rest ((i, input.take (input.length - rest.length)) :: c))
  | .wb, prev, input, caps, k =>
    let before := match prev with | some c => isWordChar c | none => false
    let after := match input with | c :: _ => isWordChar c | [] => false
    if before != after then k prev input caps else none

/-- A replacement template: literal pieces and group back-references. -/
inductive Tmpl where
  | txt (s : PyStr)
  | ref (i : ℕ)

/-- Instantiate a template with the captures of a match. -/
def applyTmpl (caps : List (ℕ × PyStr)) : List Tmpl → PyStr
  | [] => []
  | .txt s :: rest => s ++ applyTmpl caps rest
  | .ref i :: rest =>
    (match caps.find? (fun p => p.1 = i) with | some p => p.2 | none => []) ++
      applyTmpl caps rest

/-- The `re.sub` scan: at each position try the pattern; on a match emit the
instantiated template and resume after the matched text (an empty match
emits the template and then copies one character, as Python does); on
failure copy one character.  Fuel `length + 1` always suffices. -/
def subScan (r : RE) (tmpl : List Tmpl) : ℕ → Option Char → PyStr → PyStr
  | 0, _, input => input
  | fuel + 1, prev, input =>
    match matchRE r prev input [] (fun p rest caps => some (p, rest, caps)) with
    | some (p, rest, caps) =>
      if input.length - rest.length = 0 then
        match input with
        | [] => applyTmpl caps tmpl
        | c :: restIn => applyTmpl caps tmpl ++ c :: subScan r tmpl fuel (some c) restIn
      else applyTmpl caps tmpl ++ subScan r tmpl fuel p rest
    | none =>
      match input with
      | [] => []
      | c :: restIn => c :: subScan r tmpl fuel (some c) restIn

/-- Python `re.sub(pattern, template, s)`. -/
def pySub (r : RE) (tmpl : List Tmpl) (s : PyStr) : PyStr :=
  subScan r tmpl (s.length + 1) none s

/-- Python `s.replace(pat, repl)` (plain, non-regex; `pat` nonempty). -/
def pyReplaceF (pat repl : PyStr) : ℕ → PyStr → PyStr
  | 0, s => s
  | fuel + 1, s =>
    if pat.isPrefixOf s then repl ++ pyReplaceF pat repl fuel (s.drop pat.length)
    else
      match s with
      | [] => []
      | c :: rest => c :: pyReplaceF pat repl fuel rest

/-- Python `s.replace(pat, repl)`. -/
def pyReplace (pat repl s : PyStr) : PyStr := pyReplaceF pat repl (s.length + 1) s

/-! Pattern-building helpers: plain constructors composed by folding. -/

/-- Concatenation of a pattern list. -/
def reCat (l : List RE) : RE := l.foldr RE.seq RE.eps

/-- Alternation of a pattern list, preferring earlier entries. -/
def reAlts (l : List RE) : RE := (l.foldr (fun r acc =>
  match acc with
  | none => some r
  | some a => some (RE.alt r a)) none).getD RE.eps

/-- A case-sensitive literal. -/
def reL (s : String) : RE := .lit (ofLit s) false

/-- A case-insensitive literal (a `re.IGNORECASE` pattern). -/
def reLCI (s : String) : RE := .lit (ofLit s) true

/-- The class `[a-z]`. -/
def lowAZ (c : Char) : Bool := 'a' ≤ c && c ≤ 'z'

/-- The class `[A-Z]`. -/
def uppAZ (c : Char) : Bool := 'A' ≤ c && c ≤ 'Z'

/-- The class `[A-Za-z]`. -/
def alphaAZ (c : Char) : Bool := lowAZ c || uppAZ c

/-- The class `[.!?]`. -/
def endPunct (c : Char) : Bool := c = '.' || c = '!' || c = '?'

/-- The class `[ \t]`. -/
def spaceTab (c : Char) : Bool := c = ' ' || c = '\t'

/-- The class `.` (any character except a newline). -/
def anyNotNl (c : Char) : Bool := c ≠ '\n'

/-- Greedy `+` over a class. -/
def reP (p : Char → Bool) : RE := .rep p 1 none false

/-- Greedy `*` over a class. -/
def reS (p : Char → Bool) : RE := .rep p 0 none false

/-! ## The text cleaner (`documents.py` lines 845-1107)

`clean_extracted_text` references `sent_tokenize`, `word_tokenize` and
`wordninja`, none of which is imported anywhere in `documents.py`; the call
`sent_tokenize(text)` at line 954 therefore raises `NameError` on every
input.  `NameError` is not an `ImportError`, so the generic
`except Exception` handler at line 1033 runs and returns
`basic_text_cleaning(text)` — where `text` is the local variable already
rewritten by the substitutions of lines 859-951.  The whole function is
thus: the pre-tokenization substitutions, then `basic_text_cleaning`. -/

/-- The five substitutions shared by lines 947-951 of
`clean_extracted_text` and lines 1098-1102 of `basic_text_cleaning`
(identical code in the source): camelCase split, letter/digit split,
period and comma spacing. -/
def basicFive (t0 : PyStr) : PyStr :=
  let t := pySub (reCat [.grp 1 (.cls lowAZ), .grp 2 (.cls uppAZ)])
    [.ref 1, .txt (ofLit " "), .ref 2] t0
  let t := pySub (reCat [.grp 1 (.cls alphaAZ), .grp 2 (.cls Char.isDigit)])
    [.ref 1, .txt (ofLit " "), .ref 2] t
  let t := pySub (reCat [.grp 1 (.cls Char.isDigit), .grp 2 (.cls alphaAZ)])
    [.ref 1, .txt (ofLit " "), .ref 2] t
  let t := pySub (reCat [reL ".", .grp 1 (.cls uppAZ)])
    [.txt (ofLit ". "), .ref 1] t
  pySub (reCat [reL ",", .grp 1 (.cls alphaAZ)]) [.txt (ofLit ", "), .ref 1] t

/-- The `broken_patterns` table (lines 889-933), all applied with
`re.IGNORECASE`; replacements are literal. -/
def brokenPatterns : List (RE × PyStr) :=
  [ (reCat [.wb, reLCI "asa", .wb], ofLit "as a"),
    (reCat [reLCI "employsa", .wb], ofLit "employs a"),
    (reCat [reLCI "indicates th", .wb], ofLit "indicates that"),
    (reCat [reLCI "Atthe", .wb], ofLit "At the"),
    (reCat [reLCI "atthe", .wb], ofLit "at the"),
    (reCat [reLCI "needfor", .wb], ofLit "need for"),
    (reCat [reLCI "libraryand", .wb], ofLit "library and"),
    (reLCI "S cal ability", ofLit "Scalability"),
    (reCat [reLCI "timingsof", .wb], ofLit "timings of"),
    (reCat [reLCI "sharingin", .wb], ofLit "sharing in"),
    (reLCI "parallel ize", ofLit "parallelize"),
    (reLCI "parallelizethe", ofLit "parallelize the"),
    (reCat [reLCI "codeto", .wb], ofLit "code to"),
    (reCat [reLCI "solvethe", .wb], ofLit "solve the"),
    (reCat [reLCI "endof", .wb], ofLit "end of"),
    (reCat [reLCI "willbe", .wb], ofLit "will be"),
    (reCat [reLCI "ableto", .wb], ofLit "able to"),
    (reCat [reLCI "libraryto", .wb], ofLit "library to"),
    (reCat [reLCI "programfor", .wb], ofLit "program for"),
    (reLCI "math em at ical", ofLit "mathematical"),
    (reLCI "puremath ematics", ofLit "pure mathematics"),
    (reCat [reLCI "serie s", .wb], ofLit "series"),
    (reLCI "ex ample", ofLit "example"),
    (reLCI "in clud", ofLit "includ"),
    (reLCI "de scrib", ofLit "describ"),
    (reLCI "moti v ation", ofLit "motivation"),
    (reLCI "oper ation", ofLit "operation"),
    (reLCI "func tion", ofLit "function"),
    (reLCI "deﬁ nition", ofLit "definition"),
    (reLCI "de finition", ofLit "definition"),
    (reLCI "eﬃ cient", ofLit "efficient"),
    (reLCI "ef ficient", ofLit "efficient"),
    (reLCI "diﬀ erent", ofLit "different"),
    (reLCI "dif ferent", ofLit "different"),
    (reLCI "ﬁ rst", ofLit "first"),
    (reCat [reLCI " rst", .wb], ofLit "first"),
    (reLCI "we rst", ofLit "we first"),
    (reCat [reLCI "area", .wb], ofLit "are a") ]

/-- Apply the broken-pattern substitutions in table order. -/
def applyBroken (s : PyStr) : PyStr :=
  brokenPatterns.foldl (fun t pr => pySub pr.1 [.txt pr.2] t) s

/-- The substitution `re.sub(r'(?<!\n)\n(?!\n)', ' ', text)` (line 942):
replace every newline that is neither preceded nor followed by a newline
with a space.  The lookarounds inspect the original text, and each match
consumes exactly one character, so a direct scan is equivalent. -/
def subLoneNl (prev : Option Char) : PyStr → PyStr
  | [] => []
  | c :: rest =>
    if c = '\n' && prev ≠ some '\n' && rest.head? ≠ some '\n' then
      ' ' :: subLoneNl (some '\n') rest
    else c :: subLoneNl (some c) rest

/-- The substitution `re.sub(r'^\n+', '', text)` (line 1087, no MULTILINE):
the anchored pattern can only match at position 0, removing the leading
newline run. -/
def subLeadingNl (s : PyStr) : PyStr := s.dropWhile (· = '\n')

/-- The every-3-sentences paragraph-break insertion of
`improve_text_formatting` (lines 1073-1080): after each index `i` with
`(i + 1) % 3 == 0` that is not the last index, the string `'\n\n'` is
appended as an extra list element before joining with `'. '`. -/
def insertBreaksAux (total : ℕ) : ℕ → List PyStr → List PyStr
  | _, [] => []
  | i, s :: rest =>
    s :: (if (i + 1) % 3 = 0 ∧ i < total - 1 then [ofLit "\n\n"] else []) ++
      insertBreaksAux total (i + 1) rest

/-- `improve_text_formatting` (documents.py lines 1037-1091). -/
def improve_text_formatting (t0 : PyStr) : PyStr :=
  -- Step 1: paragraph breaks for chapters and numbered sections
  let t := pySub (.grp 1 (reCat [reL "Chapter", reP isPySpace, reP Char.isDigit]))
    [.txt (ofLit "\n\n"), .ref 1] t0
  let t := pySub (reCat [.grp 1 (reCat [reP Char.isDigit, reL ".", reP Char.isDigit]),
      reP isPySpace, .grp 2 (.cls uppAZ)])
    [.txt (ofLit "\n\n"), .ref 1, .txt (ofLit " "), .ref 2] t
  let t := pySub (reCat [.grp 1 (reCat [reP Char.isDigit, reL "."]),
      reP isPySpace, .grp 2 (reCat [.cls uppAZ, reP lowAZ])])
    [.txt (ofLit "\n\n"), .ref 1, .txt (ofLit " "), .ref 2] t
  -- Step 2: breaks after topic-ending sentences
  let t := pySub (reCat [.grp 1 (.cls endPunct), reP isPySpace,
      .grp 2 (reCat [.cls uppAZ, reP lowAZ, reP isPySpace, reP lowAZ,
        .rep anyNotNl 0 none true, .cls endPunct]),
      reP isPySpace, .grp 3 (reCat [.cls uppAZ, .cls uppAZ])])
    [.ref 1, .txt (ofLit "\n\n"), .ref 2, .txt (ofLit "\n\n"), .ref 3] t
  -- Step 3: breaks before new topics
  let t := pySub (reCat [.grp 1 (.cls endPunct), reS isPySpace,
      .grp 2 (reAlts [reL "Convolutional networks", reL "Neural networks",
        reL "The name", reL "Examples include", reL "Usually",
        reL "Research into", reL "In this chapter", reL "We first describe",
        reL "We then describe"])])
    [.ref 1, .txt (ofLit "\n\n"), .ref 2] t
  -- Step 3.1: specific technical content
  let t := pySub (reCat [.grp 1 (.cls endPunct), reS isPySpace,
      .grp 2 (reAlts [reL "CNNs, are", reL "Convolution is", reL "In many ways"])])
    [.ref 1, .txt (ofLit "\n\n"), .ref 2] t
  -- Step 4: figure references
  let t := pySub (reCat [.grp 1 (.cls endPunct), reS isPySpace,
      .grp 2 (reCat [reL "Figure", reP isPySpace, reP Char.isDigit])])
    [.ref 1, .txt (ofLit "\n\n"), .ref 2] t
  let t := pySub (reCat [.grp 1 (.cls endPunct), reS isPySpace,
      .grp 2 (reAlts [reL "Input image:", reL "Output"])])
    [.ref 1, .txt (ofLit "\n\n"), .ref 2] t
  -- Step 5: questions
  let t := pySub (reCat [.grp 1 (.cls endPunct), reS isPySpace,
      .grp 2 (reAlts [reL "Why", reL "What", reL "How", reL "When", reL "Where"]),
      reP isPySpace, .grp 3 (.cls lowAZ)])
    [.ref 1, .txt (ofLit "\n\n"), .ref 2, .txt (ofLit " "), .ref 3] t
  -- Step 6: contrasting statements
  let t := pySub (reCat [.grp 1 (.cls endPunct), reS isPySpace,
      .grp 2 (reAlts [reL "However", reL "Nevertheless", reL "In contrast",
        reL "On the other hand", reL "Meanwhile", reL "Furthermore",
        reL "Moreover", reL "Additionally"])])
    [.ref 1, .txt (ofLit "\n\n"), .ref 2] t
  -- Step 7: conclusions
  let t := pySub (reCat [.grp 1 (.cls endPunct), reS isPySpace,
      .grp 2 (reAlts [reL "In conclusion", reL "To conclude", reL "Finally",
        reL "In summary", reL "Overall", reL "This approach"])])
    [.ref 1, .txt (ofLit "\n\n"), .ref 2] t
  -- Step 8: missing periods between sentences, and period spacing
  let t := pySub (reCat [.grp 1 (.cls lowAZ), .grp 2 (reCat [.cls uppAZ, .cls lowAZ])])
    [.ref 1, .txt (ofLit ". "), .ref 2] t
  let t := pySub (reCat [reL ".", .grp 1 (reCat [.cls uppAZ, .cls lowAZ])])
    [.txt (ofLit ". "), .ref 1] t
  -- Step 8.1: paragraph break every 3 sentences
  let sentences := pySplitDotSpace t
  let t := pyJoin (ofLit ". ") (insertBreaksAux sentences.length 0 sentences)
  -- Step 9: technical specifications
  let t := pySub (reCat [.grp 1 (.cls endPunct), reS isPySpace,
      .grp 2 (reAlts [reL "Examples include", reL "The specific",
        reL "Real convolutional"])])
    [.ref 1, .txt (ofLit "\n\n"), .ref 2] t
  -- Step 10: cleanup
  let t := pySub (reCat [reL "\n\n", reP (fun c => c = '\n')]) [.txt (ofLit "\n\n")] t
  let t := subLeadingNl t
  let t := pySub (reP isPySpace) [.txt (ofLit " ")] t
  let t := pySub (reCat [reL "\n", reP isPySpace]) [.txt (ofLit "\n")] t
  pyStrip t

/-- `basic_text_cleaning` (documents.py lines 1093-1107). -/
def basic_text_cleaning (t : PyStr) : PyStr :=
  pyStrip (improve_text_formatting (basicFive t))

/-- The substitutions of `clean_extracted_text` that run before the
`NameError` at line 954 (lines 859-951), in source order. -/
def cleanPre (t0 : PyStr) : PyStr :=
  -- Step 0: whitespace normalization
  let t := pySub (reP spaceTab) [.txt (ofLit " ")] t0
  let t := pySub (reCat [reL "\n", reS spaceTab, reL "\n"]) [.txt (ofLit "\n\n")] t
  -- Step 1: paragraph breaks for numbered sections
  let t := pySub (reCat [.grp 1 (reCat [reP Char.isDigit, reL ".", reP Char.isDigit]),
      reP isPySpace, .grp 2 (.cls uppAZ)])
    [.txt (ofLit "\n\n"), .ref 1, .txt (ofLit " "), .ref 2] t
  let t := pySub (reCat [.grp 1 (reCat [reP Char.isDigit, reL "."]),
      reP isPySpace, .grp 2 (.cls uppAZ)])
    [.txt (ofLit "\n\n"), .ref 1, .txt (ofLit " "), .ref 2] t
  -- Step 2: space after periods
  let t := pySub (reCat [.grp 1 (reL "."), .grp 2 (reCat [.cls uppAZ, .cls lowAZ])])
    [.ref 1, .txt (ofLit " "), .ref 2] t
  -- Step 3: camelCase
  let t := pySub (reCat [.grp 1 (.cls lowAZ), .grp 2 (.cls uppAZ)])
    [.ref 1, .txt (ofLit " "), .ref 2] t
  -- Step 4: line breaks for lists, headers after sentences
  let t := pySub (.grp 1 (reCat [reP Char.isDigit, reL ".", .cls isPySpace]))
    [.txt (ofLit "\n"), .ref 1] t
  let t := pySub (reCat [.grp 1 (.cls endPunct), reS isPySpace,
      .grp 2 (reCat [.cls uppAZ, reP lowAZ, reL ":"])])
    [.ref 1, .txt (ofLit "\n\n"), .ref 2] t
  -- Step 1 (bis): ligatures
  let t := pyReplace (ofLit "ﬁ") (ofLit "fi") t
  let t := pyReplace (ofLit "ﬂ") (ofLit "fl") t
  let t := pyReplace (ofLit "ﬀ") (ofLit "ff") t
  let t := pyReplace (ofLit "ﬃ") (ofLit "ffi") t
  let t := pyReplace (ofLit "ﬄ") (ofLit "ffl") t
  let t := pyReplace (ofLit "ﬆ") (ofLit "st") t
  -- Step 1.5: broken words with a short tail
  let t := pySub (reCat [.wb, .grp 1 (reP isWordChar), reL " ",
      .grp 2 (.rep lowAZ 1 (some 3) false), .wb])
    [.ref 1, .ref 2] t
  -- broken_patterns loop
  let t := applyBroken t
  -- Step 2 (bis): paragraph structure
  let t := pySub (reCat [reL "\n\n", reP (fun c => c = '\n')]) [.txt (ofLit "\n\n")] t
  let t := subLoneNl none t
  let t := pySub (reP spaceTab) [.txt (ofLit " ")] t
  -- Step 3 (bis): the five shared fixes
  basicFive t

/-- `clean_extracted_text` (documents.py lines 845-1035): the
pre-tokenization substitutions, then — via the always-raised `NameError`
and its `except Exception` handler — `basic_text_cleaning` of the partially
rewritten text. -/
def clean_extracted_text (t : PyStr) : PyStr :=
  basic_text_cleaning (cleanPre t)

/-! ## Concrete instances used by witnesses and counterexamples -/

/-- A provider environment in which every HTTP call raises. -/
def failProviders : Providers :=
  { google := fun _ => .error (), mymemory := fun _ => .error (),
    libre := fun _ => .error () }

/-- A provider environment in which Google answers `"hola"` and the other
providers raise. -/
def googleOkProviders : Providers :=
  { google := fun _ => .ok (ofLit "hola"), mymemory := fun _ => .error (),
    libre := fun _ => .error () }

/-- Decides that a provider-stage outcome is unusable (an exception, or a
response whose stripped text is empty), i.e. that the waterfall advances. -/
def stageUnusable (r : Except Unit PyStr) : Bool :=
  match r with
  | .error _ => true
  | .ok t => !usableText t

/-- A concrete upload environment: extraction libraries fail, the
summarizer echoes its input, keyword extraction fails, storage succeeds. -/
def sampleUploadEnv : UploadEnv :=
  { pdfExtract := fun _ => .error (), docxExtract := fun _ => .error (),
    pptxExtract := fun _ => .error (), summarizerAvailable := true,
    summarize := fun t _ => .ok t,
    multilingualAbstractive := fun _ _ => .ok none,
    overallTimeout := false, kwExtract := fun _ _ => .error (),
    setOrder := id, storage := .saved (ofLit "65a000000000000000000000"),
    newDocId := ofLit "doc-1" }

/-- A concrete article for the storage witness. -/
def sampleArticle : Article :=
  { title := some (ofLit "Lean Tips"), content := some (ofLit "hello hello world"),
    keywords := [], hasEmbedding := false }

end InstaBrief

namespace InstaBrief

set_option maxRecDepth 4000
/-! # Helper lemmas -/

theorem length_dropWhile_le (p : Char → Bool) (l : List Char) :
    (l.dropWhile p).length ≤ l.length := by
  induction l with
  | nil => simp
  | cons c rest ih =>
    rw [List.dropWhile_cons]
    split
    · exact le_trans ih (Nat.le_succ _)
    · simp

theorem length_pyStrip_le (s : PyStr) : (pyStrip s).length ≤ s.length := by
  unfold pyStrip
  calc ((s.dropWhile isPySpace).reverse.dropWhile isPySpace).reverse.length
      = ((s.dropWhile isPySpace).reverse.dropWhile isPySpace).length := by
        rw [List.length_reverse]
    _ ≤ (s.dropWhile isPySpace).reverse.length := length_dropWhile_le _ _
    _ = (s.dropWhile isPySpace).length := by rw [List.length_reverse]
    _ ≤ s.length := length_dropWhile_le _ _

theorem append_dotSpace_ne_nil (b : PyStr) : b ++ ofLit ". " ≠ [] := by
  intro h
  have hl := congrArg List.length h
  rw [List.length_append, List.length_nil] at hl
  have h2 : (ofLit ". ").length = 2 := rfl
  omega

theorem chunkLoop_ne_nil (limit : ℕ) :
    ∀ (ss : List PyStr) (cur : PyStr), ss ≠ [] ∨ cur ≠ [] →
      chunkLoop limit ss cur ≠ [] := by
  intro ss
  induction ss with
  | nil =>
    intro cur h
    have hcur : cur ≠ [] := h.resolve_left (fun hh => hh rfl)
    simp only [chunkLoop, List.isEmpty_eq_true]
    rw [if_neg hcur]
    simp
  | cons s rest ih =>
    intro cur _
    simp only [chunkLoop]
    split
    · exact ih _ (Or.inr (append_dotSpace_ne_nil _))
    · split
      · exact ih _ (Or.inr (append_dotSpace_ne_nil _))
      · simp

theorem pySplitDotSpace_ne_nil (s : PyStr) : pySplitDotSpace s ≠ [] := by
  unfold pySplitDotSpace
  generalize ([] : PyStr) = acc
  induction acc, s using splitDSAux.induct with
  | case1 acc => simp [splitDSAux]
  | case2 acc rest ih => simp [splitDSAux]
  | case3 acc c rest h ih => rw [splitDSAux.eq_3 _ _ _ h]; exact ih

/-- A replicated non-separator character splits into a single sentence. -/
theorem splitDSAux_replicate_a :
    ∀ (n : ℕ) (acc : PyStr),
      splitDSAux acc (List.replicate n 'a') = [acc.reverse ++ List.replicate n 'a'] := by
  intro n
  induction n with
  | zero => intro acc; simp [splitDSAux]
  | succ n ih =>
    intro acc
    rw [List.replicate_succ,
      splitDSAux.eq_3 _ _ _ (fun _ hc _ => by simp at hc), ih]
    simp

/-- Every chunk built by `chunkLoop` is either within the limit or the
strip of a single overlong sentence followed by `'. '`. -/
theorem chunkLoop_chunk_bound (limit : ℕ) (S : List PyStr) :
    ∀ (ss : List PyStr) (cur : PyStr), (∀ s ∈ ss, s ∈ S) →
      (cur.length ≤ limit ∨ ∃ s ∈ S, cur = s ++ ofLit ". ") →
      ∀ c ∈ chunkLoop limit ss cur,
        c.length ≤ limit ∨ ∃ s ∈ S, c = pyStrip (s ++ ofLit ". ") := by
  intro ss
  induction ss with
  | nil =>
    intro cur _ hcur c hc
    simp only [chunkLoop] at hc
    split at hc
    · simp at hc
    · simp only [List.mem_singleton] at hc
      subst hc
      rcases hcur with h | ⟨s, hs, rfl⟩
      · exact Or.inl (le_trans (length_pyStrip_le _) h)
      · exact Or.inr ⟨s, hs, rfl⟩
  | cons s rest ih =>
    intro cur hss hcur c hc
    have hrest : ∀ x ∈ rest, x ∈ S := fun x hx => hss x (List.mem_cons_of_mem _ hx)
    have hsS : s ∈ S := hss s (List.mem_cons_self s rest)
    simp only [chunkLoop] at hc
    split at hc
    · exact ih _ hrest (Or.inl (by assumption)) c hc
    · split at hc
      · exact ih _ hrest (Or.inr ⟨s, hsS, rfl⟩) c hc
      · rcases List.mem_cons.mp hc with rfl | hc'
        · rcases hcur with h | ⟨s', hs', rfl⟩
          · exact Or.inl (le_trans (length_pyStrip_le _) h)
          · exact Or.inr ⟨s', hs', rfl⟩
        · exact ih _ hrest (Or.inr ⟨s, hsS, rfl⟩) c hc'

/-! # Stage lemmas for the translation waterfall -/

theorem translateChunksLog_mem (p : ProviderCall) (call : PyStr → Except Unit PyStr) :
    ∀ (cs : List PyStr), ∀ x ∈ (translateChunksLog p call cs).1,
      x.1 = p ∧ x.2 ∈ cs := by
  intro cs
  induction cs with
  | nil => simp [translateChunksLog]
  | cons c rest ih =>
    intro x hx
    simp only [translateChunksLog] at hx
    cases hcall : call c with
    | error e =>
      rw [hcall] at hx
      simp only [List.mem_singleton] at hx
      subst hx
      exact ⟨rfl, by simp⟩
    | ok t =>
      rw [hcall] at hx
      rcases hrec : translateChunksLog p call rest with ⟨log, r⟩
      rw [hrec] at hx
      simp only [List.mem_cons] at hx
      rcases hx with rfl | hx'
      · exact ⟨rfl, by simp⟩
      · have := ih x (by rw [hrec]; exact hx')
        exact ⟨this.1, List.mem_cons_of_mem _ this.2⟩

theorem libreStage_mem (P : Providers) (text : PyStr) :
    ∀ pc ∈ (libreStage P text).1, pc.1 = ProviderCall.libre ∧
      (2000 < text.length → pc.2 ∈ chunkSplit 1500 text) := by
  intro pc hpc
  unfold libreStage at hpc
  split at hpc
  · rcases hl : translateChunksLog .libre P.libre (chunkSplit 1500 text) with ⟨log, r⟩
    rw [hl] at hpc
    have := translateChunksLog_mem .libre P.libre (chunkSplit 1500 text) pc
      (by rw [hl]; exact hpc)
    exact ⟨this.1, fun _ => this.2⟩
  · rename_i hlen
    cases hcall : P.libre text with
    | error e =>
      rw [hcall] at hpc
      simp only [List.mem_singleton] at hpc
      subst hpc
      exact ⟨rfl, fun h => absurd h hlen⟩
    | ok t =>
      rw [hcall] at hpc
      simp only [List.mem_singleton] at hpc
      subst hpc
      exact ⟨rfl, fun h => absurd h hlen⟩

theorem mymemoryChunkStage_mem (P : Providers) (text : PyStr) :
    ∀ pc ∈ (mymemoryChunkStage P text).1, pc.1 = ProviderCall.mymemory ∧
      pc.2 ∈ chunkSplit 400 text := by
  intro pc hpc
  unfold mymemoryChunkStage at hpc
  rcases hl : translateChunksLog .mymemory P.mymemory (chunkSplit 400 text) with ⟨log, r⟩
  rw [hl] at hpc
  exact translateChunksLog_mem _ _ _ pc (by rw [hl]; exact hpc)

theorem translateBodyFinal_spec (P : Providers) (text : PyStr)
    (log : List (ProviderCall × PyStr)) :
    (translateBody.translateBodyFinal P text log).calls =
      log ++ (mymemoryChunkStage P text).1 ∧
    (stageUnusable (mymemoryChunkStage P text).2 = true →
      (translateBody.translateBodyFinal P text log).result =
        .error ⟨503, ofLit "All translation services unavailable"⟩) := by
  rcases hm : mymemoryChunkStage P text with ⟨mLog, mr⟩
  unfold translateBody.translateBodyFinal
  rw [hm]
  cases mr with
  | error e => exact ⟨rfl, fun _ => rfl⟩
  | ok t =>
    by_cases hu : usableText t
    · refine ⟨by simp [hu], fun h => ?_⟩
      simp [stageUnusable, hu] at h
    · exact ⟨by simp [hu], fun _ => by simp [hu]⟩

theorem translateBodyAfterMyMemory_spec (P : Providers) (text : PyStr)
    (log : List (ProviderCall × PyStr)) :
    (∃ rest, (translateBody.translateBodyAfterMyMemory P text log).calls = log ++ rest) ∧
    (stageUnusable (libreStage P text).2 = true →
      (translateBody.translateBodyAfterMyMemory P text log).calls =
        log ++ (libreStage P text).1 ++ (mymemoryChunkStage P text).1 ∧
      (stageUnusable (mymemoryChunkStage P text).2 = true →
        (translateBody.translateBodyAfterMyMemory P text log).result =
          .error ⟨503, ofLit "All translation services unavailable"⟩)) ∧
    (stageUnusable (libreStage P text).2 = false →
      ∃ t, (libreStage P text).2 = .ok t ∧
        (translateBody.translateBodyAfterMyMemory P text log).result = .ok t ∧
        (translateBody.translateBodyAfterMyMemory P text log).calls =
          log ++ (libreStage P text).1) := by
  rcases hl : libreStage P text with ⟨lLog, lr⟩
  have hfin := translateBodyFinal_spec P text (log ++ lLog)
  unfold translateBody.translateBodyAfterMyMemory
  rw [hl]
  cases lr with
  | error e =>
    refine ⟨⟨lLog ++ (mymemoryChunkStage P text).1, ?_⟩, fun _ => ⟨?_, hfin.2⟩, fun h => ?_⟩
    · rw [hfin.1, List.append_assoc]
    · rw [hfin.1]
    · simp [stageUnusable] at h
  | ok t =>
    by_cases hu : usableText t
    · refine ⟨⟨lLog, by simp [hu]⟩, fun h => ?_, fun _ => ⟨t, rfl, by simp [hu], by simp [hu]⟩⟩
      simp [stageUnusable, hu] at h
    · refine ⟨⟨lLog ++ (mymemoryChunkStage P text).1, ?_⟩, fun _ => ⟨?_, ?_⟩, fun h => ?_⟩
      · simp only [hu, if_false, Bool.false_eq_true]
        rw [hfin.1, List.append_assoc]
      · simp only [hu, if_false, Bool.false_eq_true]
        rw [hfin.1]
      · simp only [hu, if_false, Bool.false_eq_true]
        exact hfin.2
      · simp [stageUnusable, hu] at h

theorem translateBodyAfterGoogle_spec (P : Providers) (text : PyStr)
    (log : List (ProviderCall × PyStr)) :
    (∃ rest, (translateBody.translateBodyAfterGoogle P text log).calls =
      log ++ (.mymemory, text) :: rest) ∧
    (∀ t, P.mymemory text = .ok t → usableText t = true →
      (translateBody.translateBodyAfterGoogle P text log).result = .ok t ∧
      (translateBody.translateBodyAfterGoogle P text log).calls =
        log ++ [(.mymemory, text)]) ∧
    (stageUnusable (P.mymemory text) = true →
      translateBody.translateBodyAfterGoogle P text log =
        translateBody.translateBodyAfterMyMemory P text (log ++ [(.mymemory, text)])) := by
  unfold translateBody.translateBodyAfterGoogle
  cases hm : P.mymemory text with
  | error e =>
    obtain ⟨⟨rest, hrest⟩, -, -⟩ :=
      translateBodyAfterMyMemory_spec P text (log ++ [(.mymemory, text)])
    refine ⟨⟨rest, by rw [hrest, List.append_assoc]; rfl⟩, ?_, fun _ => rfl⟩
    intro t ht
    simp at ht
  | ok t =>
    by_cases hu : usableText t
    · refine ⟨⟨[], by simp [hu]⟩, ?_, fun h => ?_⟩
      · intro t' ht' _
        cases ht'
        exact ⟨by simp [hu], by simp [hu]⟩
      · simp [stageUnusable, hu] at h
    · obtain ⟨⟨rest, hrest⟩, -, -⟩ :=
        translateBodyAfterMyMemory_spec P text (log ++ [(.mymemory, text)])
      refine ⟨⟨rest, ?_⟩, ?_, fun _ => by simp [hu]⟩
      · simp only [hu, if_false, Bool.false_eq_true]
        rw [hrest, List.append_assoc]
        rfl
      · intro t' ht' hu'
        cases ht'
        simp [hu'] at hu

theorem translateBody_spec (P : Providers) (text : PyStr) :
    (∃ rest, (translateBody P text).calls = (.google, text) :: rest) ∧
    (∀ t, P.google text = .ok t → usableText t = true →
      translateBody P text = ⟨.ok t, [(.google, text)]⟩) ∧
    (stageUnusable (P.google text) = true →
      translateBody P text =
        translateBody.translateBodyAfterGoogle P text [(.google, text)]) := by
  unfold translateBody
  cases hg : P.google text with
  | error e =>
    obtain ⟨⟨rest, hrest⟩, -, -⟩ :=
      translateBodyAfterGoogle_spec P text [(.google, text)]
    refine ⟨⟨(.mymemory, text) :: rest, by rw [hrest]; rfl⟩, ?_, fun _ => rfl⟩
    intro t ht
    simp at ht
  | ok t =>
    by_cases hu : usableText t
    · refine ⟨⟨[], by simp [hu]⟩, ?_, fun h => ?_⟩
      · intro t' ht' _
        cases ht'
        simp [hu]
      · simp [stageUnusable, hu] at h
    · obtain ⟨⟨rest, hrest⟩, -, -⟩ :=
        translateBodyAfterGoogle_spec P text [(.google, text)]
      refine ⟨⟨(.mymemory, text) :: rest, ?_⟩, ?_, fun _ => by simp [hu]⟩
      · simp only [hu, if_false, Bool.false_eq_true]
        rw [hrest]
        rfl
      · intro t' ht' hu'
        cases ht'
        simp [hu'] at hu

theorem translate_text_calls_eq (P : Providers) (text : PyStr) :
    (translate_text P text).calls = (translateBody P text).calls := by
  unfold translate_text
  cases h : (translateBody P text).result <;> simp [h]

theorem translate_text_result_ok (P : Providers) (text t : PyStr)
    (h : (translateBody P text).result = .ok t) :
    (translate_text P text).result = .ok t := by
  simp [translate_text, h]

theorem translate_text_result_error (P : Providers) (text : PyStr) (e : HTTPExc)
    (h : (translateBody P text).result = .error e) :
    (translate_text P text).result =
      .error ⟨500, ofLit "Translation failed: " ++ strOfHTTPExc e⟩ := by
  simp [translate_text, h]

/-! # Claim C3 -/

/-- C3 (amended): `translate_text` tries Google Translate, then MyMemory,
then LibreTranslate (chunking text over 2000 characters on `'. '`
boundaries), then MyMemory again with 400-character chunks; a usable
(non-empty) earlier translation is returned immediately with no later
provider called.  The chunking bound is amended: every chunk is at most
1500 characters *unless a single sentence alone exceeds the limit*, in
which case that sentence forms its own oversized chunk. -/
theorem c3_provider_waterfall :
    ∀ (P : Providers) (text : PyStr),
      ((translate_text P text).calls.head? = some (.google, text)) ∧
      (∀ t, P.google text = .ok t → usableText t = true →
        (translate_text P text).result = .ok t ∧
        (translate_text P text).calls = [(.google, text)]) ∧
      (stageUnusable (P.google text) = true →
        ∀ t, P.mymemory text = .ok t → usableText t = true →
          (translate_text P text).result = .ok t ∧
          (translate_text P text).calls = [(.google, text), (.mymemory, text)]) ∧
      (stageUnusable (P.google text) = true → stageUnusable (P.mymemory text) = true →
        (translate_text P text).calls =
          [(.google, text), (.mymemory, text)] ++ (libreStage P text).1 ++
            (if stageUnusable (libreStage P text).2 then (mymemoryChunkStage P text).1
             else []) ∧
        (∀ pc ∈ (libreStage P text).1, pc.1 = ProviderCall.libre ∧
          (2000 < text.length → pc.2 ∈ chunkSplit 1500 text)) ∧
        (∀ pc ∈ (mymemoryChunkStage P text).1, pc.1 = ProviderCall.mymemory ∧
          pc.2 ∈ chunkSplit 400 text)) ∧
      (∀ c ∈ chunkSplit 1500 text, c.length ≤ 1500 ∨
        ∃ s ∈ pySplitDotSpace text, c = pyStrip (s ++ ofLit ". ")) := by
  intro P text
  obtain ⟨⟨rest0, hcalls0⟩, hgok, hgfail⟩ := translateBody_spec P text
  refine ⟨?_, ?_, ?_, ?_, ?_⟩
  · rw [translate_text_calls_eq, hcalls0]
    rfl
  · intro t ht hu
    have hb := hgok t ht hu
    exact ⟨translate_text_result_ok P text t (by rw [hb]),
      by rw [translate_text_calls_eq, hb]⟩
  · intro hg t ht hu
    have hb := hgfail hg
    obtain ⟨-, hmok, -⟩ := translateBodyAfterGoogle_spec P text [(.google, text)]
    have hres := hmok t ht hu
    constructor
    · exact translate_text_result_ok P text t (by rw [hb]; exact hres.1)
    · rw [translate_text_calls_eq, hb, hres.2]
      rfl
  · intro hg hm
    have hb := hgfail hg
    obtain ⟨-, -, hnext⟩ := translateBodyAfterGoogle_spec P text [(.google, text)]
    have hb2 := hnext hm
    obtain ⟨-, hfail, hok⟩ :=
      translateBodyAfterMyMemory_spec P text
        ([(ProviderCall.google, text)] ++ [(ProviderCall.mymemory, text)])
    refine ⟨?_, libreStage_mem P text, mymemoryChunkStage_mem P text⟩
    by_cases hl : stageUnusable (libreStage P text).2 = true
    · rw [if_pos hl, translate_text_calls_eq, hb, hb2, (hfail hl).1]
      simp
    · have hl' : stageUnusable (libreStage P text).2 = false := by
        simpa using hl
      obtain ⟨t, -, -, hcalls⟩ := hok hl'
      rw [if_neg (by simp [hl']), translate_text_calls_eq, hb, hb2, hcalls]
      simp
  · intro c hc
    exact chunkLoop_chunk_bound 1500 (pySplitDotSpace text) (pySplitDotSpace text) []
      (fun _ h => h) (Or.inl (by simp)) c hc

/-- Witness for C3: with Google answering `"hola"`, the endpoint returns it
and the call log is exactly one Google call. -/
theorem c3_provider_waterfall_witness :
    (translate_text googleOkProviders (ofLit "hello")).result = .ok (ofLit "hola") ∧
    (translate_text googleOkProviders (ofLit "hello")).calls =
      [(.google, ofLit "hello")] :=
  (c3_provider_waterfall googleOkProviders (ofLit "hello")).2.1
    (ofLit "hola") rfl (by decide)

theorem dropWhile_cons_of_neg (p : Char → Bool) (c : Char) (l : List Char)
    (h : p c = false) : (c :: l).dropWhile p = c :: l := by
  simp [List.dropWhile_cons, h]

theorem dropWhile_cons_of_pos (p : Char → Bool) (c : Char) (l : List Char)
    (h : p c = true) : (c :: l).dropWhile p = l.dropWhile p := by
  simp [List.dropWhile_cons, h]

theorem pyStrip_block (n : ℕ) :
    pyStrip (List.replicate (n + 1) 'a' ++ ofLit ". ") =
      List.replicate (n + 1) 'a' ++ ['.'] := by
  have hA : (List.replicate (n + 1) 'a' : PyStr) = 'a' :: List.replicate n 'a' :=
    List.replicate_succ 'a' n
  have hds : (ofLit ". ") = ['.', ' '] := rfl
  unfold pyStrip
  rw [hds, hA, List.cons_append,
    dropWhile_cons_of_neg _ _ _ (by rfl),
    List.reverse_cons, List.reverse_append]
  rw [show (['.', ' '] : List Char).reverse = [' ', '.'] from rfl]
  simp only [List.cons_append, List.nil_append]
  rw [dropWhile_cons_of_pos _ _ _ (by rfl),
    dropWhile_cons_of_neg _ _ _ (by rfl),
    List.reverse_cons, List.reverse_append, List.reverse_reverse]
  simp only [List.reverse_cons, List.reverse_nil, List.nil_append, List.cons_append]

/-- Counterexample to C3 as stated: a 2001-character text with no sentence
boundary is chunked by the LibreTranslate stage into one chunk of 2002
characters, exceeding the claimed 1500-character bound. -/
theorem c3_chunk_bound_counterexample :
    2000 < (List.replicate 2001 'a' : PyStr).length ∧
    ∃ c ∈ chunkSplit 1500 (List.replicate 2001 'a' : PyStr), 1500 < c.length := by
  have hsplit : pySplitDotSpace (List.replicate 2001 'a') =
      [List.replicate 2001 'a'] := by
    unfold pySplitDotSpace
    rw [splitDSAux_replicate_a]
    rw [List.reverse_nil, List.nil_append]
  have hlen : ¬((([] : PyStr) ++ List.replicate 2001 'a' ++ ofLit ". ").length ≤ 1500) := by
    simp only [List.nil_append, List.length_append, List.length_replicate]
    have h2 : (ofLit ". ").length = 2 := rfl
    omega
  have hne : (List.replicate 2001 'a' ++ ofLit ". " : PyStr).isEmpty = false := by
    rw [show (List.replicate 2001 'a' : PyStr) = 'a' :: List.replicate 2000 'a' from
      List.replicate_succ 'a' 2000, List.cons_append]
    rfl
  have hstrip : pyStrip (List.replicate 2001 'a' ++ ofLit ". ") =
      List.replicate 2001 'a' ++ ['.'] := pyStrip_block 2000
  constructor
  · rw [List.length_replicate]
    omega
  · refine ⟨List.replicate 2001 'a' ++ ['.'], ?_, ?_⟩
    · unfold chunkSplit
      rw [hsplit]
      unfold chunkLoop
      rw [if_neg hlen, if_pos (show (([] : PyStr).isEmpty = true) from rfl)]
      unfold chunkLoop
      rw [hne, if_neg (by simp), hstrip]
      exact List.mem_singleton.mpr rfl
    · rw [List.length_append, List.length_replicate]
      simp

/-! # Claim C7 -/

/-- C7 (amended): when all four provider stages fail (exception, timeout,
or unusable empty response at each stage), the endpoint body raises
`HTTPException(503, "All translation services unavailable")`, but the
surrounding `except Exception` handler of `translate_text` converts it, so
the client receives a 500, not a 503. -/
theorem c7_translate_all_fail_surfaces_500 :
    ∀ (P : Providers) (text : PyStr),
      stageUnusable (P.google text) = true →
      stageUnusable (P.mymemory text) = true →
      stageUnusable (libreStage P text).2 = true →
      stageUnusable (mymemoryChunkStage P text).2 = true →
      (translateBody P text).result =
        .error ⟨503, ofLit "All translation services unavailable"⟩ ∧
      (translate_text P text).result =
        .error ⟨500, ofLit "Translation failed: " ++
          strOfHTTPExc ⟨503, ofLit "All translation services unavailable"⟩⟩ := by
  intro P text h1 h2 h3 h4
  obtain ⟨-, -, hgfail⟩ := translateBody_spec P text
  obtain ⟨-, -, hnext⟩ := translateBodyAfterGoogle_spec P text [(.google, text)]
  obtain ⟨-, hfail, -⟩ :=
    translateBodyAfterMyMemory_spec P text
      ([(ProviderCall.google, text)] ++ [(ProviderCall.mymemory, text)])
  have hres : (translateBody P text).result =
      .error ⟨503, ofLit "All translation services unavailable"⟩ := by
    rw [hgfail h1, hnext h2]
    exact (hfail h3).2 h4
  exact ⟨hres, translate_text_result_error P text _ hres⟩

/-- Witness for C7 at a concrete all-failing environment. -/
theorem c7_translate_all_fail_surfaces_500_witness :
    (translateBody failProviders (ofLit "hi")).result =
      .error ⟨503, ofLit "All translation services unavailable"⟩ ∧
    (translate_text failProviders (ofLit "hi")).result =
      .error ⟨500, ofLit "Translation failed: " ++
        strOfHTTPExc ⟨503, ofLit "All translation services unavailable"⟩⟩ :=
  c7_translate_all_fail_surfaces_500 failProviders (ofLit "hi")
    (by decide) (by decide) (by decide) (by decide)

/-- Counterexample to C7 as stated: with every provider failing, the
status surfaced to the client is 500 — not 503. -/
theorem c7_status_counterexample :
    (translate_text failProviders (ofLit "hi")).result =
      .error ⟨500, ofLit "Translation failed: 503: All translation services unavailable"⟩ ∧
    (∀ e, (translate_text failProviders (ofLit "hi")).result = .error e →
      e.status ≠ 503) := by
  have h1 : (translate_text failProviders (ofLit "hi")).result =
      .error ⟨500, ofLit "Translation failed: 503: All translation services unavailable"⟩ := by
    decide
  refine ⟨h1, ?_⟩
  intro e he h503
  rw [h1] at he
  cases he
  simp at h503

/-! # Claims C8 and C10 -/

theorem pyStrip_replicate_a (n : ℕ) :
    pyStrip (List.replicate n 'a') = List.replicate n 'a' := by
  cases n with
  | zero => rfl
  | succ m =>
    unfold pyStrip
    rw [List.replicate_succ, dropWhile_cons_of_neg _ _ _ (by rfl),
      ← List.replicate_succ, List.reverse_replicate,
      List.replicate_succ, dropWhile_cons_of_neg _ _ _ (by rfl),
      ← List.replicate_succ, List.reverse_replicate]

theorem pyStrip_space_replicate_a (n : ℕ) :
    pyStrip (' ' :: List.replicate (n + 1) 'a') = List.replicate (n + 1) 'a' := by
  unfold pyStrip
  rw [dropWhile_cons_of_pos _ _ _ (by rfl),
    List.replicate_succ, dropWhile_cons_of_neg _ _ _ (by rfl),
    ← List.replicate_succ, List.reverse_replicate,
    List.replicate_succ, dropWhile_cons_of_neg _ _ _ (by rfl),
    ← List.replicate_succ, List.reverse_replicate]

/-- C8: for text beyond the 5000-character gTTS threshold, `synthesize_gtts`
splits the text into `'. '`-boundary chunks, synthesizes every chunk, and
returns only the first chunk's audio. -/
theorem c8_gtts_returns_first_chunk :
    ∀ {α : Type} (synth : PyStr → α) (emptyAudio : α) (text : PyStr),
      5000 < text.length →
      (synthesize_gtts synth emptyAudio text).synthesized = chunkSplit 5000 text ∧
      ∃ c cs, chunkSplit 5000 text = c :: cs ∧
        (synthesize_gtts synth emptyAudio text).audio = synth c := by
  intro α synth e text hlen
  have hne : chunkSplit 5000 text ≠ [] :=
    chunkLoop_ne_nil 5000 _ [] (Or.inl (pySplitDotSpace_ne_nil text))
  unfold synthesize_gtts
  rw [if_neg (by omega)]
  rcases hcs : chunkSplit 5000 text with _ | ⟨c, cs⟩
  · exact absurd hcs hne
  · exact ⟨by simp [hcs], c, cs, rfl, by simp [hcs]⟩

/-- Witness for C8 at a 5001-character text with the identity audio oracle. -/
theorem c8_gtts_returns_first_chunk_witness :
    (synthesize_gtts (fun s => s) ([] : PyStr)
        (List.replicate 5001 'a')).synthesized =
      chunkSplit 5000 (List.replicate 5001 'a') ∧
    ∃ c cs, chunkSplit 5000 (List.replicate 5001 'a' : PyStr) = c :: cs ∧
      (synthesize_gtts (fun s => s) ([] : PyStr)
          (List.replicate 5001 'a')).audio = c :=
  c8_gtts_returns_first_chunk (fun s => s) [] (List.replicate 5001 'a')
    (by rw [List.length_replicate]; omega)

/-- C10 (amended): `synthesize` strips the text first; the 10000-character
truncation applies to the *stripped* text, so two inputs whose stripped
forms agree on their first 10000 characters (both exceeding that length)
produce identical audio, and empty or whitespace-only text raises
`ValueError`. -/
theorem c10_synthesize_strip_truncate :
    ∀ {α : Type} (synth : PyStr → α) (emptyAudio : α),
      (∀ t1 t2 : PyStr, (pyStrip t1).take 10000 = (pyStrip t2).take 10000 →
        10000 < (pyStrip t1).length → 10000 < (pyStrip t2).length →
        synthesize synth emptyAudio t1 = synthesize synth emptyAudio t2) ∧
      (∀ t : PyStr, pyStrip t = [] →
        synthesize synth emptyAudio t = .error ()) := by
  intro α synth e
  constructor
  · intro t1 t2 htake h1 h2
    have hne1 : t1.isEmpty = false := by
      cases t1 with
      | nil => simp [pyStrip] at h1
      | cons c cs => rfl
    have hne2 : t2.isEmpty = false := by
      cases t2 with
      | nil => simp [pyStrip] at h2
      | cons c cs => rfl
    have hs1 : (pyStrip t1).isEmpty = false := by
      cases hp : pyStrip t1 with
      | nil => rw [hp] at h1; simp at h1
      | cons c cs => rfl
    have hs2 : (pyStrip t2).isEmpty = false := by
      cases hp : pyStrip t2 with
      | nil => rw [hp] at h2; simp at h2
      | cons c cs => rfl
    unfold synthesize synthesizePrepare
    rw [hne1, hne2, hs1, hs2]
    simp only [Bool.or_self, Bool.false_eq_true, if_false]
    rw [if_pos h1, if_pos h2, htake]
  · intro t ht
    unfold synthesize synthesizePrepare
    rw [ht]
    simp [Except.map]

/-- Witness for C10 at two concrete 10001/10002-character texts and a
whitespace-only text. -/
theorem c10_synthesize_strip_truncate_witness :
    synthesize (fun s => s) ([] : PyStr) (List.replicate 10001 'a') =
      synthesize (fun s => s) ([] : PyStr) (List.replicate 10002 'a') ∧
    synthesize (fun s => s) ([] : PyStr) (ofLit "  ") = .error () := by
  constructor
  · refine (c10_synthesize_strip_truncate (fun s => s) []).1
      (List.replicate 10001 'a') (List.replicate 10002 'a') ?_ ?_ ?_
    · rw [pyStrip_replicate_a, pyStrip_replicate_a, List.take_replicate,
        List.take_replicate]
      norm_num
    · rw [pyStrip_replicate_a, List.length_replicate]
      omega
    · rw [pyStrip_replicate_a, List.length_replicate]
      omega
  · exact (c10_synthesize_strip_truncate (fun s => s) []).2 (ofLit "  ") (by decide)

/-- Counterexample to C10 as stated: the input `' '` followed by 10000
copies of `'a'` is longer than 10000 characters, yet `synthesize` does not
truncate it to its first 10000 characters plus `"..."` — stripping runs
first, and the stripped text (exactly 10000 characters) is passed through
unchanged. -/
theorem c10_truncation_counterexample :
    10000 < (' ' :: List.replicate 10000 'a' : PyStr).length ∧
    synthesizePrepare (' ' :: List.replicate 10000 'a') =
      .ok (List.replicate 10000 'a') ∧
    ∀ s, synthesizePrepare (' ' :: List.replicate 10000 'a') = .ok s →
      s ≠ (' ' :: List.replicate 10000 'a' : PyStr).take 10000 ++ ofLit "..." := by
  have hstrip : pyStrip (' ' :: List.replicate 10000 'a') =
      List.replicate 10000 'a' := by
    have := pyStrip_space_replicate_a 9999
    norm_num at this
    exact this
  have hok : synthesizePrepare (' ' :: List.replicate 10000 'a') =
      .ok (List.replicate 10000 'a') := by
    unfold synthesizePrepare
    rw [show ((' ' :: List.replicate 10000 'a' : PyStr).isEmpty) = false from rfl,
      hstrip]
    rw [show (List.replicate 10000 'a' : PyStr).isEmpty = false from by
      rw [List.replicate_succ]; rfl]
    simp only [Bool.or_self, Bool.false_eq_true, if_false]
    rw [if_neg (by rw [List.length_replicate]; omega)]
  refine ⟨by rw [List.length_cons, List.length_replicate]; omega, hok, ?_⟩
  intro s hs hcontra
  rw [hok] at hs
  cases hs
  have hlen := congrArg List.length hcontra
  rw [List.length_replicate, List.length_append, List.length_take,
    List.length_cons, List.length_replicate] at hlen
  have h3 : (ofLit "...").length = 3 := rfl
  omega

/-! # Claims C2 and C6 -/

/-- C2: an upload whose filename extension is not one of `.pdf`, `.docx`,
`.txt`, `.pptx` returns the error body immediately — with HTTP status 200
(a plain dict return), *not* a 400-class status — and invokes no
extraction routine and no summarization.  (The repository's own
`test_edge_cases.py` expects status 400 here, so the 200 is recorded as a
code bug rather than an amended claim.) -/
theorem c2_upload_unsupported_extension :
    ∀ (env : UploadEnv) (filename contents : PyStr) (sl : ℕ),
      pyLower (splitextExt filename) ∉ allowedTypes →
      upload_document env filename contents sl =
        { status := 200,
          errorField := some (unsupportedTypeMsg (pyLower (splitextExt filename))),
          content := none, summaryExtractive := none, summaryAbstractive := none,
          tags := [], invoked := [], sumStageReached := false } := by
  intro env f c sl h
  unfold upload_document
  rw [if_pos h]

/-- Witness for C2 at `malware.exe`: the response is the error body with
status 200 and an empty invocation list. -/
theorem c2_upload_unsupported_extension_witness :
    pyLower (splitextExt (ofLit "malware.exe")) ∉ allowedTypes ∧
    upload_document sampleUploadEnv (ofLit "malware.exe") (ofLit "MZfake") 50 =
      { status := 200,
        errorField := some (unsupportedTypeMsg (ofLit ".exe")),
        content := none, summaryExtractive := none, summaryAbstractive := none,
        tags := [], invoked := [], sumStageReached := false } := by
  have h : pyLower (splitextExt (ofLit "malware.exe")) ∉ allowedTypes := by decide
  refine ⟨h, ?_⟩
  rw [c2_upload_unsupported_extension sampleUploadEnv (ofLit "malware.exe")
    (ofLit "MZfake") 50 h]
  have he : pyLower (splitextExt (ofLit "malware.exe")) = ofLit ".exe" := by decide
  rw [he]

/-- C6 (amended): the `.txt` upload branch applies no 50-character minimum
(that check exists only in the PDF/DOCX/PPTX branches), so a short `.txt`
file is not classified as too-short: the decoded text flows into the
summarization stage and the endpoint returns a normal document response. -/
theorem c6_txt_has_no_minimum_length :
    ∀ (env : UploadEnv) (filename contents : PyStr) (sl : ℕ),
      pyLower (splitextExt filename) = ofLit ".txt" →
      env.storage ≠ .timeout →
      (upload_document env filename contents sl).errorField = none ∧
      (upload_document env filename contents sl).sumStageReached = true ∧
      (upload_document env filename contents sl).invoked = [.txtDecode] ∧
      (upload_document env filename contents sl).summaryExtractive.isSome := by
  intro env f c sl hext hst
  have hmem : pyLower (splitextExt f) ∈ allowedTypes := by rw [hext]; decide
  have hex : extractText env (pyLower (splitextExt f)) f c = (c, [.txtDecode]) := by
    rw [hext]
    unfold extractText
    rw [if_neg (by decide), if_neg (by decide), if_neg (by decide)]
  unfold upload_document
  rw [if_neg (fun hn => hn hmem), hex]
  rcases hsum : summariesStage env c
    (uploadMaxLength c.length sl) with ⟨⟨ext, ab⟩, called⟩
  cases hstg : env.storage with
  | timeout => exact absurd hstg hst
  | saved i => simp [hsum, hstg]
  | failed => simp [hsum, hstg]

/-- Witness for C6 via its amended theorem at `hello.txt`. -/
theorem c6_txt_has_no_minimum_length_witness :
    (upload_document sampleUploadEnv (ofLit "hello.txt") (ofLit "hello world") 10).errorField
      = none ∧
    (upload_document sampleUploadEnv (ofLit "hello.txt") (ofLit "hello world") 10).sumStageReached
      = true ∧
    (upload_document sampleUploadEnv (ofLit "hello.txt") (ofLit "hello world") 10).invoked
      = [.txtDecode] ∧
    (upload_document sampleUploadEnv (ofLit "hello.txt") (ofLit "hello world") 10).summaryExtractive.isSome :=
  c6_txt_has_no_minimum_length sampleUploadEnv (ofLit "hello.txt")
    (ofLit "hello world") 10 (by decide) (by decide)

/-- Counterexample to C6 as stated: uploading `hello.txt` containing
`"hello world"` (11 characters, below the 50-character minimum the claim
asserts) yields a *normal* document response — summary stage reached, no
error body, the text itself surviving as content and summary — not a
defined short-document response. -/
theorem c6_short_txt_counterexample :
    (ofLit "hello world").length < 50 ∧
    upload_document sampleUploadEnv (ofLit "hello.txt") (ofLit "hello world") 10 =
      { status := 200, errorField := none,
        content := some (ofLit "hello world"),
        summaryExtractive := some (ofLit "hello world"),
        summaryAbstractive := some (ofLit "hello world"),
        tags := [ofLit "Hello", ofLit "Txt"],
        invoked := [.txtDecode], sumStageReached := true } := by
  constructor
  · decide
  · decide

/-! # Claim C4 -/

theorem length_insertDescBy {α β : Type} [LinearOrder β] (key : α → β) (x : α) :
    ∀ l : List α, (insertDescBy key x l).length = l.length + 1 := by
  intro l
  induction l with
  | nil => rfl
  | cons y ys ih =>
    unfold insertDescBy
    split
    · rfl
    · rw [List.length_cons, ih, List.length_cons]

theorem length_sortDescBy {α β : Type} [LinearOrder β] (key : α → β) :
    ∀ (l : List α), (sortDescBy key l).length = l.length := by
  have haux : ∀ (l acc : List α),
      (l.foldl (fun a x => insertDescBy key x a) acc).length =
        acc.length + l.length := by
    intro l
    induction l with
    | nil => intro acc; simp
    | cons y ys ih =>
      intro acc
      rw [List.foldl_cons, ih, length_insertDescBy, List.length_cons]
      omega
  intro l
  unfold sortDescBy
  rw [haux]
  simp

/-- C4 (amended): with KeyBERT, YAKE, sklearn and NLTK all unavailable,
`extract_keywords` returns a non-empty list for every input of at least 10
characters (after stripping) *that yields at least one word surviving the
frequency filter* — an alphabetic word longer than 2 characters outside the
stopword list.  `num_keywords` must be positive (its default is 10). -/
theorem c4_keyword_extractor_nonempty :
    ∀ (text : PyStr) (num : ℕ),
      text.isEmpty = false → 10 ≤ (pyStrip text).length →
      freqFilteredWords text ≠ [] → 0 < num →
      extract_keywords text num ≠ [] := by
  intro text num hne hlen hwords hnum
  unfold extract_keywords
  rw [hne, Bool.false_or, if_neg (by simp [Nat.not_lt, hlen])]
  unfold extractFrequency
  apply List.ne_nil_of_length_pos
  rw [List.length_take, length_sortDescBy, List.length_append,
    List.length_map, List.length_map]
  have h1 : 0 < (mostCommon num (freqFilteredWords text)).length := by
    unfold mostCommon
    rw [List.length_take, length_sortDescBy, List.length_map]
    obtain ⟨w, ws, hw⟩ := List.exists_cons_of_ne_nil hwords
    rw [hw]
    have : dedupFirst (w :: ws) = w :: dedupFirstAux [w] ws := by
      simp [dedupFirst, dedupFirstAux]
    rw [this, List.length_cons]
    omega
  omega

/-- Witness for C4 at a concrete text with extractable words. -/
theorem c4_keyword_extractor_nonempty_witness :
    extract_keywords (ofLit "hello hello world") 10 ≠ [] :=
  c4_keyword_extractor_nonempty (ofLit "hello hello world") 10
    (by decide) (by decide) (by decide) (by decide)

/-- Counterexample to C4 as stated: `"a a a a a a"` has 11 characters (so
it passes the 10-character guard), yet every token is filtered out (length
≤ 2), the frequency fallback finds nothing, and `extract_keywords` returns
the empty list — not a non-empty one. -/
theorem c4_empty_result_counterexample :
    (ofLit "a a a a a a").isEmpty = false ∧
    10 ≤ (pyStrip (ofLit "a a a a a a")).length ∧
    extract_keywords (ofLit "a a a a a a") 10 = [] := by
  refine ⟨by decide, by decide, by decide⟩

/-! # Claim C5 -/

/-- Counterexample to C5 as stated: the cleaner is not idempotent.  On
`"xy. xy. xy. xy."` (four sentences) `improve_text_formatting` appends a
`'\n\n'` element after the third sentence before re-joining with `'. '`;
the later `\s+ → ' '` collapse turns it into a stray `". "`, producing
`"xy. xy. xy. . xy."` — and a second application inserts yet another,
producing `"xy. xy. xy. . . xy."`. -/
theorem c5_cleaner_not_idempotent_counterexample :
    clean_extracted_text (clean_extracted_text (ofLit "xy. xy. xy. xy.")) ≠
      clean_extracted_text (ofLit "xy. xy. xy. xy.") := by
  decide

/-- C5 (amended): `clean_extracted_text` is not idempotent to a fixed
point: a second application can change the output again.  The four-sentence
input `"xy. xy. xy. xy."` cleans to `"xy. xy. xy. . xy."`, which a second
pass changes to `"xy. xy. xy. . . xy."` (the sentence-shortening rejoin
duplicates the `'. '` separator); and the one-sentence input `"xﬁRst."`
cleans to `"xfi Rst."` (ligature expansion, then camel-case splitting),
which a second pass rewrites to `"xfifirst."`: the space introduced by the
camel-case split lets the case-insensitive `" rst" → "first"` broken-word
pattern fire.  So even a one-sentence cleaned output need not be a fixed
point. -/
theorem c5_cleaner_second_pass_changes :
    clean_extracted_text (ofLit "xy. xy. xy. xy.") = ofLit "xy. xy. xy. . xy." ∧
    clean_extracted_text (ofLit "xy. xy. xy. . xy.") =
      ofLit "xy. xy. xy. . . xy." ∧
    clean_extracted_text (ofLit "xﬁRst.") = ofLit "xfi Rst." ∧
    clean_extracted_text (ofLit "xfi Rst.") = ofLit "xfifirst." := by
  exact ⟨by decide, by decide, by decide, by decide⟩

/-! # Claim C9 -/

/-- C9: after `save_article`, the stored keywords field is the keyword
extraction over title-plus-content exactly when the gate
`should_generate_tags` is on, and the empty list otherwise; the gate
defaults to on when no user is given, when the lookup fails, and when the
preference is absent, and follows `auto_generate_tags` when present. -/
theorem c9_save_article_keywords_gate :
    ∀ (a : Article) (lookup : UserPrefLookup),
      (shouldGenerateTags lookup = true →
        (save_article a lookup).keywords = nlpExtractKeywords (articleText a) 10) ∧
      (shouldGenerateTags lookup = false → (save_article a lookup).keywords = []) ∧
      (∀ b, shouldGenerateTags (.preferences (some b)) = b) ∧
      shouldGenerateTags .noUser = true ∧
      shouldGenerateTags .dbError = true ∧
      shouldGenerateTags (.preferences none) = true := by
  intro a lookup
  refine ⟨fun h => ?_, fun h => ?_, fun b => ?_, rfl, rfl, rfl⟩
  · simp [save_article, h]
  · simp [save_article, h]
  · cases b <;> rfl

/-- Witness for C9 at concrete inputs: an opted-out owner stores empty
keywords; with no user the extraction result is stored. -/
theorem c9_save_article_keywords_gate_witness :
    (save_article sampleArticle (.preferences (some false))).keywords = [] ∧
    (save_article sampleArticle .noUser).keywords =
      nlpExtractKeywords (articleText sampleArticle) 10 :=
  ⟨(c9_save_article_keywords_gate sampleArticle (.preferences (some false))).2.1 rfl,
   (c9_save_article_keywords_gate sampleArticle .noUser).1 rfl⟩

-- ## Step 1: bit length correctness

theorem bitLenF_upper : ∀ (f n : ℕ), n < 2 ^ f → n < 2 ^ bitLenF f n := by
  intro f
  induction f with
  | zero => intro n h; simpa [bitLenF] using h
  | succ f ih =>
    intro n h
    unfold bitLenF
    split
    · omega
    · rename_i hn0
      have hdiv : n / 2 < 2 ^ f := by
        rw [Nat.div_lt_iff_lt_mul (by norm_num)]
        calc n < 2 ^ (f + 1) := h
          _ = 2 ^ f * 2 := by ring
      have := ih (n / 2) hdiv
      have h2 : n < 2 * (n / 2) + 2 := by omega
      calc n < 2 * (n / 2) + 2 := h2
        _ ≤ 2 * (2 ^ bitLenF f (n / 2) - 1) + 2 := by
            have hle : n / 2 + 1 ≤ 2 ^ bitLenF f (n / 2) := this
            omega
        _ ≤ 2 ^ (bitLenF f (n / 2) + 1) := by
            have hone : 1 ≤ 2 ^ bitLenF f (n / 2) := Nat.one_le_two_pow
            rw [pow_succ]
            omega

theorem bitLenF_lower : ∀ (f n : ℕ), 0 < n → 2 ^ (bitLenF f n - 1) ≤ n := by
  intro f
  induction f with
  | zero => intro n h; simp [bitLenF]; omega
  | succ f ih =>
    intro n hn
    unfold bitLenF
    rw [if_neg (by omega)]
    rcases Nat.lt_or_ge n 2 with h2 | h2
    · have hn1 : n = 1 := by omega
      subst hn1
      have h0 : bitLenF f 0 = 0 := by cases f <;> simp [bitLenF]
      simp [h0]
    · have hpos : 0 < n / 2 := by omega
      have hih := ih (n / 2) hpos
      rcases Nat.eq_zero_or_pos (bitLenF f (n / 2)) with h0 | h0
      · rw [h0]
        simpa using hn
      · have heq : bitLenF f (n / 2) + 1 - 1 = (bitLenF f (n / 2) - 1) + 1 := by omega
        rw [heq, pow_succ]
        omega

-- ## Step 2: binade bracketing

theorem zpow_toNat_cancel (L : ℤ) :
    (2:ℚ) ^ L * (2:ℚ) ^ ((-L).toNat) = (2:ℚ) ^ (L.toNat) := by
  rw [← zpow_natCast (2:ℚ) (-L).toNat, ← zpow_natCast (2:ℚ) L.toNat,
    ← zpow_add₀ (by norm_num : (2:ℚ) ≠ 0)]
  congr 1
  omega

theorem qlePow2_iff (L : ℤ) (n d : ℕ) (hd : 0 < d) :
    qlePow2 L n d = true ↔ (2:ℚ) ^ L ≤ (n:ℚ) / d := by
  unfold qlePow2
  rw [decide_eq_true_iff]
  have hdq : (0:ℚ) < d := by exact_mod_cast hd
  have hpow : (0:ℚ) < (2:ℚ) ^ ((-L).toNat) := by positivity
  rw [le_div_iff hdq]
  have hcast : (d * 2 ^ L.toNat ≤ n * 2 ^ (-L).toNat) ↔
      ((d:ℚ) * 2 ^ (L.toNat) ≤ (n:ℚ) * 2 ^ ((-L).toNat)) := by
    constructor
    · intro h; exact_mod_cast h
    · intro h; exact_mod_cast h
  rw [hcast, ← zpow_toNat_cancel L, ← mul_assoc, mul_le_mul_right hpow, mul_comm]

theorem bitLen_pos (n : ℕ) (hn : 0 < n) (hn2 : n < 2 ^ 128) : 0 < bitLen n := by
  have h := bitLenF_upper 128 n hn2
  by_contra h0
  push_neg at h0
  have hz : bitLenF 128 n = 0 := by
    have : bitLen n = 0 := by omega
    simpa [bitLen] using this
  rw [hz] at h
  simp at h
  omega

theorem ratLog2_spec (n d : ℕ) (hn : 0 < n) (hd : 0 < d)
    (hn2 : n < 2 ^ 128) (hd2 : d < 2 ^ 128) :
    (2:ℚ) ^ ratLog2 n d ≤ (n:ℚ) / d ∧ (n:ℚ) / d < (2:ℚ) ^ (ratLog2 n d + 1) := by
  have hdq : (0:ℚ) < d := by exact_mod_cast hd
  have ha1 : 0 < bitLen n := bitLen_pos n hn hn2
  have hb1 : 0 < bitLen d := bitLen_pos d hd hd2
  have hna : n < 2 ^ bitLen n := bitLenF_upper 128 n hn2
  have hnal : 2 ^ (bitLen n - 1) ≤ n := bitLenF_lower 128 n hn
  have hdb : d < 2 ^ bitLen d := bitLenF_upper 128 d hd2
  have hdbl : 2 ^ (bitLen d - 1) ≤ d := bitLenF_lower 128 d hd
  set a := bitLen n with ha
  set b := bitLen d with hb
  have hnaq : (n:ℚ) < 2 ^ (a:ℤ) := by
    rw [zpow_natCast]; exact_mod_cast hna
  have hnalq : (2:ℚ) ^ ((a:ℤ) - 1) ≤ n := by
    have he : ((a:ℤ) - 1) = ((a - 1 : ℕ) : ℤ) := by omega
    rw [he, zpow_natCast]; exact_mod_cast hnal
  have hdbq : (d:ℚ) < 2 ^ (b:ℤ) := by
    rw [zpow_natCast]; exact_mod_cast hdb
  have hdblq : (2:ℚ) ^ ((b:ℤ) - 1) ≤ d := by
    have he : ((b:ℤ) - 1) = ((b - 1 : ℕ) : ℤ) := by omega
    rw [he, zpow_natCast]; exact_mod_cast hdbl
  have hupper : (n:ℚ) / d < 2 ^ ((a:ℤ) - b + 1) := by
    rw [div_lt_iff hdq]
    calc (n:ℚ) < 2 ^ (a:ℤ) := hnaq
      _ = 2 ^ ((a:ℤ) - b + 1) * 2 ^ ((b:ℤ) - 1) := by
          rw [← zpow_add₀ (by norm_num : (2:ℚ) ≠ 0)]; congr 1; ring
      _ ≤ 2 ^ ((a:ℤ) - b + 1) * d := by
          exact mul_le_mul_of_nonneg_left hdblq (by positivity)
  have hlower : (2:ℚ) ^ ((a:ℤ) - 1 - b) ≤ (n:ℚ) / d := by
    rw [le_div_iff hdq]
    calc (2:ℚ) ^ ((a:ℤ) - 1 - b) * d
        ≤ 2 ^ ((a:ℤ) - 1 - b) * 2 ^ (b:ℤ) := by
          exact mul_le_mul_of_nonneg_left (le_of_lt hdbq) (by positivity)
      _ = 2 ^ ((a:ℤ) - 1) := by
          rw [← zpow_add₀ (by norm_num : (2:ℚ) ≠ 0)]; congr 1; ring
      _ ≤ n := hnalq
  have hrl : ratLog2 n d =
      (if qlePow2 ((a:ℤ) - b) n d then ((a:ℤ) - b) else ((a:ℤ) - b) - 1) := by
    simp only [ratLog2, ← ha, ← hb]
  cases hq : qlePow2 ((a:ℤ) - (b:ℤ)) n d with
  | true =>
    rw [hrl, hq, if_pos rfl]
    refine ⟨(qlePow2_iff _ _ _ hd).mp hq, hupper⟩
  | false =>
    rw [hrl, hq]
    simp only [Bool.false_eq_true, if_false]
    constructor
    · have he : (a:ℤ) - b - 1 = (a:ℤ) - 1 - b := by ring
      rw [he]; exact hlower
    · have he : (a:ℤ) - b - 1 + 1 = (a:ℤ) - b := by ring
      rw [he]
      have hiff := qlePow2_iff ((a:ℤ) - b) n d hd
      rw [hq] at hiff
      have : ¬ ((2:ℚ) ^ ((a:ℤ) - b) ≤ (n:ℚ) / d) := by
        intro hcon
        exact absurd (hiff.mpr hcon) (by simp)
      linarith [lt_of_not_le this]

-- ## Step 3: round-to-nearest-even bounds

theorem rneNat_bounds (N D : ℕ) (hD : 0 < D) :
    (N:ℚ) / D - 1/2 ≤ (rneNat N D : ℚ) ∧ ((rneNat N D : ℚ) ≤ (N:ℚ) / D + 1/2) ∧
    N / D ≤ rneNat N D := by
  have hDq : (0:ℚ) < D := by exact_mod_cast hD
  have hmod : N % D < D := Nat.mod_lt _ hD
  have hdm := Nat.div_add_mod N D
  have hvalq : (N:ℚ) / D = ((N / D : ℕ) : ℚ) + ((N % D : ℕ) : ℚ) / D := by
    field_simp
    have hc : ((D * (N / D) + N % D : ℕ) : ℚ) = (N : ℚ) := by exact_mod_cast hdm
    push_cast at hc
    linarith
  have hr0 : (0:ℚ) ≤ ((N % D : ℕ) : ℚ) / D := by positivity
  have hr1 : ((N % D : ℕ) : ℚ) / D < 1 := by
    rw [div_lt_one hDq]; exact_mod_cast hmod
  simp only [rneNat]
  split_ifs with h1 h2 h3
  · have hnat : N % D * 2 ≤ 1 * D := by omega
    have hhalf : ((N % D : ℕ) : ℚ) / D ≤ 1/2 := by
      rw [div_le_div_iff hDq two_pos]
      exact_mod_cast hnat
    exact ⟨by rw [hvalq]; linarith, by rw [hvalq]; linarith, le_refl _⟩
  · have hnat : 1 * D ≤ N % D * 2 := by omega
    have hhalf : 1/2 ≤ ((N % D : ℕ) : ℚ) / D := by
      rw [div_le_div_iff two_pos hDq]
      exact_mod_cast hnat
    exact ⟨by push_cast; rw [hvalq]; linarith, by push_cast; rw [hvalq]; linarith, by omega⟩
  · have hnat : N % D * 2 = 1 * D := by omega
    have hhalf : ((N % D : ℕ) : ℚ) / D = 1/2 := by
      rw [div_eq_div_iff hDq.ne' (by norm_num : (2:ℚ) ≠ 0)]
      exact_mod_cast hnat
    exact ⟨by rw [hvalq]; linarith, by rw [hvalq]; linarith, le_refl _⟩
  · have hnat : N % D * 2 = 1 * D := by omega
    have hhalf : ((N % D : ℕ) : ℚ) / D = 1/2 := by
      rw [div_eq_div_iff hDq.ne' (by norm_num : (2:ℚ) ≠ 0)]
      exact_mod_cast hnat
    exact ⟨by push_cast; rw [hvalq]; linarith, by push_cast; rw [hvalq]; linarith, by omega⟩

-- ## Step 4: dround lemmas

theorem dround_eq (n d : ℕ) (hn : n ≠ 0) :
    dround n d = (rneNat (n * 2 ^ ((52 - ratLog2 n d).toNat))
      (d * 2 ^ ((-(52 - ratLog2 n d)).toNat)), ratLog2 n d - 52) := by
  simp only [dround, if_neg hn]

theorem scaled_ratio_val (n d : ℕ) (S : ℤ) (hd : 0 < d) :
    ((n * 2 ^ S.toNat : ℕ) : ℚ) / ((d * 2 ^ (-S).toNat : ℕ) : ℚ) = (n:ℚ) / d * 2 ^ S := by
  have hdq : (d:ℚ) ≠ 0 := (Nat.cast_pos.mpr hd).ne'
  have hx : ((2:ℚ) ^ ((-S).toNat)) ≠ 0 := by positivity
  push_cast
  rw [show (2:ℚ) ^ (S.toNat) = 2 ^ S * 2 ^ ((-S).toNat) from (zpow_toNat_cancel S).symm]
  field_simp
  ring

theorem dround_err (n d : ℕ) (hn : 0 < n) (hd : 0 < d)
    (hn2 : n < 2 ^ 128) (hd2 : d < 2 ^ 128) :
    |pfVal (dround n d) - (n:ℚ) / d| ≤ (n:ℚ) / d * 2 ^ (-53 : ℤ) := by
  obtain ⟨hL1, _⟩ := ratLog2_spec n d hn hd hn2 hd2
  rw [dround_eq n d (by omega)]
  set L := ratLog2 n d with hL
  set N := n * 2 ^ ((52 - L).toNat) with hN
  set D := d * 2 ^ ((-(52 - L)).toNat) with hD
  have hDpos : 0 < D := by rw [hD]; positivity
  obtain ⟨hlo, hhi, _⟩ := rneNat_bounds N D hDpos
  have hval : (N:ℚ) / D = (n:ℚ) / d * 2 ^ (52 - L) := by
    rw [hN, hD]; exact scaled_ratio_val n d (52 - L) hd
  have hpv : pfVal (rneNat N D, L - 52) = (rneNat N D : ℚ) * 2 ^ (L - 52) := rfl
  have hrel : (n:ℚ) / d = (N:ℚ) / D * 2 ^ (L - 52) := by
    rw [hval, mul_assoc, ← zpow_add₀ (by norm_num : (2:ℚ) ≠ 0)]
    have he : (52 - L) + (L - 52) = 0 := by ring
    rw [he, zpow_zero, mul_one]
  have h2pos : (0:ℚ) < 2 ^ (L - 52 : ℤ) := by positivity
  have habs : |(rneNat N D : ℚ) - (N:ℚ) / D| ≤ 1/2 := abs_le.mpr ⟨by linarith, by linarith⟩
  calc |pfVal (rneNat N D, L - 52) - (n:ℚ) / d|
      = |(rneNat N D : ℚ) - (N:ℚ) / D| * 2 ^ (L - 52 : ℤ) := by
        rw [hpv, hrel, ← sub_mul, abs_mul, abs_of_pos h2pos]
    _ ≤ 1/2 * 2 ^ (L - 52 : ℤ) := mul_le_mul_of_nonneg_right habs (le_of_lt h2pos)
    _ = 2 ^ (L : ℤ) * 2 ^ (-53 : ℤ) := by
        rw [show (1:ℚ)/2 = 2 ^ (-1 : ℤ) by norm_num,
          ← zpow_add₀ (by norm_num : (2:ℚ) ≠ 0), ← zpow_add₀ (by norm_num : (2:ℚ) ≠ 0)]
        congr 1; ring
    _ ≤ (n:ℚ) / d * 2 ^ (-53 : ℤ) := mul_le_mul_of_nonneg_right hL1 (by positivity)

theorem dround_ge_int (n d k : ℕ) (hn : 0 < n) (hd : 0 < d)
    (hn2 : n < 2 ^ 128) (hd2 : d < 2 ^ 128)
    (hk : (k:ℚ) ≤ (n:ℚ) / d) (hub : (n:ℚ) / d < 2 ^ (53 : ℤ)) :
    (k:ℚ) ≤ pfVal (dround n d) := by
  obtain ⟨hL1, _⟩ := ratLog2_spec n d hn hd hn2 hd2
  have hdq : (0:ℚ) < d := by exact_mod_cast hd
  have hL52 : ratLog2 n d ≤ 52 := by
    by_contra hcon
    push_neg at hcon
    have h53 : (2:ℚ) ^ (53 : ℤ) ≤ 2 ^ ratLog2 n d :=
      zpow_le_zpow_right₀ one_le_two (by omega)
    linarith
  rw [dround_eq n d (by omega)]
  set L := ratLog2 n d with hL
  have ht0 : ((-(52 - L)).toNat) = 0 := by omega
  rw [ht0, pow_zero, mul_one]
  have hkd : k * d ≤ n := by
    have hq : (k:ℚ) * d ≤ n := (le_div_iff₀ hdq).mp hk
    exact_mod_cast hq
  have hfloor : k * 2 ^ ((52 - L).toNat) ≤ (n * 2 ^ ((52 - L).toNat)) / d := by
    rw [Nat.le_div_iff_mul_le hd]
    calc k * 2 ^ ((52 - L).toNat) * d = k * d * 2 ^ ((52 - L).toNat) := by ring
      _ ≤ n * 2 ^ ((52 - L).toNat) := Nat.mul_le_mul_right _ hkd
  obtain ⟨_, _, hge⟩ := rneNat_bounds (n * 2 ^ ((52 - L).toNat)) d hd
  have hr : k * 2 ^ ((52 - L).toNat) ≤ rneNat (n * 2 ^ ((52 - L).toNat)) d :=
    le_trans hfloor hge
  have hrq : (k:ℚ) * 2 ^ (((52 - L).toNat : ℤ)) ≤ (rneNat (n * 2 ^ ((52 - L).toNat)) d : ℚ) := by
    have hc := (Nat.cast_le (α := ℚ)).mpr hr
    push_cast at hc
    rw [zpow_natCast]
    exact hc
  have h2pos : (0:ℚ) < 2 ^ (L - 52 : ℤ) := by positivity
  have hcalc : (k:ℚ) = (k:ℚ) * 2 ^ (((52 - L).toNat : ℤ)) * 2 ^ (L - 52 : ℤ) := by
    rw [mul_assoc, ← zpow_add₀ (by norm_num : (2:ℚ) ≠ 0)]
    have he : (((52 - L).toNat : ℤ)) + (L - 52) = 0 := by omega
    rw [he, zpow_zero, mul_one]
  show (k:ℚ) ≤ (rneNat (n * 2 ^ ((52 - L).toNat)) d : ℚ) * 2 ^ (L - 52 : ℤ)
  rw [hcalc]
  exact mul_le_mul_of_nonneg_right hrq (le_of_lt h2pos)

theorem rneNat_one (N : ℕ) : rneNat N 1 = N := by
  simp [rneNat, Nat.mod_one]

theorem pfFloor_spec (p : PFloat) : pfFloor p = ⌊pfVal p⌋₊ := by
  unfold pfFloor pfVal
  split_ifs with h
  · have h2 : (2:ℚ) ^ p.2 = ((2 ^ p.2.toNat : ℕ) : ℚ) := by
      push_cast
      rw [← zpow_natCast]
      congr 1
      omega
    rw [h2, ← Nat.cast_mul, Nat.floor_natCast]
  · have h2 : (2:ℚ) ^ p.2 = (((2 ^ (-p.2).toNat : ℕ) : ℚ))⁻¹ := by
      push_cast
      rw [← zpow_natCast, ← zpow_neg]
      congr 1
      omega
    rw [h2, ← div_eq_mul_inv]
    exact (Nat.floor_div_nat (α := ℚ) p.1 (2 ^ (-p.2).toNat)).symm

theorem ratLog2_nonneg (n : ℕ) (hn : 0 < n) (hn2 : n < 2 ^ 128) : 0 ≤ ratLog2 n 1 := by
  obtain ⟨_, hL2⟩ := ratLog2_spec n 1 hn one_pos hn2 (by norm_num)
  rw [Nat.cast_one, div_one] at hL2
  by_contra hcon
  push_neg at hcon
  have h1 : (2:ℚ) ^ (ratLog2 n 1 + 1) ≤ 2 ^ (0:ℤ) :=
    zpow_le_zpow_right₀ one_le_two (by omega)
  have h2 : (1:ℚ) ≤ n := by exact_mod_cast hn
  rw [zpow_zero] at h1
  linarith

theorem ratLog2_le (n b : ℕ) (hn : 0 < n) (hn2 : n < 2 ^ 128) (hb : n ≤ 2 ^ b) :
    ratLog2 n 1 ≤ b := by
  obtain ⟨hL1, _⟩ := ratLog2_spec n 1 hn one_pos hn2 (by norm_num)
  rw [Nat.cast_one, div_one] at hL1
  by_contra hcon
  push_neg at hcon
  have h1 : (2:ℚ) ^ ((b:ℤ) + 1) ≤ 2 ^ ratLog2 n 1 :=
    zpow_le_zpow_right₀ one_le_two (by omega)
  have h2 : (n:ℚ) ≤ 2 ^ (b:ℤ) := by rw [zpow_natCast]; exact_mod_cast hb
  have h3 : (2:ℚ) ^ (b:ℤ) < 2 ^ ((b:ℤ) + 1) := zpow_lt_zpow_right₀ one_lt_two (by omega)
  linarith

theorem pfOfNat_eq (n : ℕ) (hn : 0 < n) (hn52 : n ≤ 2 ^ 52) :
    pfOfNat n = (n * 2 ^ ((52 - ratLog2 n 1).toNat), ratLog2 n 1 - 52) := by
  have hL52 : ratLog2 n 1 ≤ 52 :=
    ratLog2_le n 52 hn (lt_of_le_of_lt hn52 (by norm_num)) hn52
  unfold pfOfNat
  rw [dround_eq n 1 (by omega)]
  have ht0 : ((-(52 - ratLog2 n 1)).toNat) = 0 := by omega
  rw [ht0]
  norm_num [rneNat_one]

theorem pfOfNat_val (n : ℕ) (hn : n ≤ 2 ^ 52) : pfVal (pfOfNat n) = n := by
  rcases Nat.eq_zero_or_pos n with h0 | hpos
  · subst h0; simp [pfOfNat, dround, pfVal]
  · rw [pfOfNat_eq n hpos hn]
    show ((n * 2 ^ ((52 - ratLog2 n 1).toNat) : ℕ) : ℚ) * 2 ^ (ratLog2 n 1 - 52) = n
    push_cast
    rw [mul_assoc, ← zpow_natCast (2:ℚ) ((52 - ratLog2 n 1).toNat),
      ← zpow_add₀ (by norm_num : (2:ℚ) ≠ 0)]
    have hL52 : ratLog2 n 1 ≤ 52 :=
      ratLog2_le n 52 hpos (lt_of_le_of_lt hn (by norm_num)) hn
    have he : (((52 - ratLog2 n 1).toNat : ℤ)) + (ratLog2 n 1 - 52) = 0 := by omega
    rw [he, zpow_zero, mul_one]

theorem pfOfNat_fst_lt (n : ℕ) (hn : 0 < n) (hn52 : n ≤ 2 ^ 52) :
    (pfOfNat n).1 < 2 ^ 53 := by
  rw [pfOfNat_eq n hn hn52]
  obtain ⟨_, hL2⟩ := ratLog2_spec n 1 hn one_pos (lt_of_le_of_lt hn52 (by norm_num)) (by norm_num)
  rw [Nat.cast_one, div_one] at hL2
  have hL0 : 0 ≤ ratLog2 n 1 := ratLog2_nonneg n hn (lt_of_le_of_lt hn52 (by norm_num))
  have hL52 : ratLog2 n 1 ≤ 52 :=
    ratLog2_le n 52 hn (lt_of_le_of_lt hn52 (by norm_num)) hn52
  have hnn : n < 2 ^ ((ratLog2 n 1 + 1).toNat) := by
    have hq : (n:ℚ) < 2 ^ (((ratLog2 n 1 + 1).toNat : ℤ)) := by
      rw [show (((ratLog2 n 1 + 1).toNat : ℤ)) = ratLog2 n 1 + 1 by omega]
      exact hL2
    rw [zpow_natCast] at hq
    exact_mod_cast hq
  calc n * 2 ^ ((52 - ratLog2 n 1).toNat)
      < 2 ^ ((ratLog2 n 1 + 1).toNat) * 2 ^ ((52 - ratLog2 n 1).toNat) := by
        exact mul_lt_mul_of_pos_right hnn (Nat.pos_pow_of_pos _ (by norm_num))
    _ = 2 ^ 53 := by
        rw [← pow_add]
        congr 1
        omega

-- ## Step 5/6: the 0.8 cap computes 4*tw/5 exactly

theorem pfMul_eq (p q : PFloat) :
    pfMul p q = dround (p.1 * q.1 * 2 ^ ((p.2 + q.2).toNat)) (2 ^ ((-(p.2 + q.2)).toNat)) := by
  simp only [pfMul]

theorem dround45 : dround 4 5 = (7205759403792794, -53) := by decide

theorem pyCap_eq (tw : ℕ) (hpos : 0 < tw) (h32 : tw ≤ 2 ^ 32) :
    pyCap tw = 4 * tw / 5 := by
  have h128 : tw < 2 ^ 128 := lt_of_le_of_lt h32 (by norm_num)
  have h52 : tw ≤ 2 ^ 52 := le_trans h32 (by norm_num)
  have hL0 : 0 ≤ ratLog2 tw 1 := ratLog2_nonneg tw hpos h128
  have hL32 : ratLog2 tw 1 ≤ 32 := ratLog2_le tw 32 hpos h128 h32
  have hpf : pfOfNat tw = (tw * 2 ^ ((52 - ratLog2 tw 1).toNat), ratLog2 tw 1 - 52) :=
    pfOfNat_eq tw hpos h52
  have hm1 : tw * 2 ^ ((52 - ratLog2 tw 1).toNat) < 2 ^ 53 := by
    have hf := pfOfNat_fst_lt tw hpos h52
    rw [hpf] at hf
    exact hf
  unfold pyCap
  rw [hpf, dround45, pfMul_eq]
  dsimp only
  have hE : ratLog2 tw 1 - 52 + -53 = ratLog2 tw 1 - 105 := by ring
  rw [hE]
  have he1 : ((ratLog2 tw 1 - 105).toNat) = 0 := by omega
  have he2 : ((-(ratLog2 tw 1 - 105)).toNat) = (52 - ratLog2 tw 1).toNat + 53 := by omega
  rw [he1, pow_zero, mul_one, he2]
  set s := (52 - ratLog2 tw 1).toNat with hs
  have hs52 : s ≤ 52 := by omega
  have hNpos : 0 < tw * 2 ^ s * 7205759403792794 := by positivity
  have hNlt : tw * 2 ^ s * 7205759403792794 < 2 ^ 128 := by
    calc tw * 2 ^ s * 7205759403792794
        < 2 ^ 53 * 7205759403792794 := by
          exact mul_lt_mul_of_pos_right hm1 (by norm_num)
      _ < 2 ^ 128 := by norm_num
  have hDpos : 0 < 2 ^ (s + 53) := Nat.pos_pow_of_pos _ (by norm_num)
  have hDlt : 2 ^ (s + 53) < 2 ^ 128 := by
    calc 2 ^ (s + 53) ≤ 2 ^ 105 := Nat.pow_le_pow_right (by norm_num) (by omega)
      _ < 2 ^ 128 := by norm_num
  have hx : ((tw * 2 ^ s * 7205759403792794 : ℕ) : ℚ) / ((2 ^ (s + 53) : ℕ) : ℚ)
      = (tw : ℚ) * 7205759403792794 / 2 ^ (53 : ℕ) := by
    push_cast
    rw [pow_add]
    have hsne : ((2:ℚ) ^ s) ≠ 0 := by positivity
    field_simp
    ring
  have htwq : (tw:ℚ) ≤ 2 ^ (32:ℕ) := by exact_mod_cast h32
  have htw0 : (0:ℚ) ≤ (tw:ℚ) := by positivity
  have hknat : (4 * tw : ℚ) ≤ 5 * ((4 * tw / 5 : ℕ) : ℚ) + 4 := by
    have hdm := Nat.div_add_mod (4 * tw) 5
    have hm : (4 * tw) % 5 < 5 := Nat.mod_lt _ (by norm_num)
    have hn : 4 * tw ≤ 5 * (4 * tw / 5) + 4 := by omega
    exact_mod_cast hn
  have hkle : ((4 * tw / 5 : ℕ) : ℚ) ≤ (tw : ℚ) * 7205759403792794 / 2 ^ (53 : ℕ) := by
    have hc : ((4 * tw / 5 : ℕ) : ℚ) ≤ ((4 * tw : ℕ) : ℚ) / ((5 : ℕ) : ℚ) := Nat.cast_div_le
    push_cast at hc
    rw [le_div_iff (by norm_num : (0:ℚ) < 5)] at hc
    rw [le_div_iff (by norm_num : (0:ℚ) < 2 ^ (53:ℕ))]
    norm_num
    linarith [hc, htw0]
  have hxub : (tw : ℚ) * 7205759403792794 / 2 ^ (53 : ℕ) < 2 ^ (53 : ℤ) := by
    rw [div_lt_iff (by norm_num : (0:ℚ) < 2 ^ (53:ℕ))]
    calc (tw:ℚ) * 7205759403792794 ≤ 2 ^ (32:ℕ) * 7205759403792794 :=
          mul_le_mul_of_nonneg_right htwq (by norm_num)
      _ < 2 ^ (53 : ℤ) * 2 ^ (53:ℕ) := by norm_num
  rw [← hx] at hkle hxub
  have h1 : ((4 * tw / 5 : ℕ) : ℚ) ≤
      pfVal (dround (tw * 2 ^ s * 7205759403792794) (2 ^ (s + 53))) :=
    dround_ge_int _ _ _ hNpos hDpos hNlt hDlt hkle hxub
  have herr := dround_err (tw * 2 ^ s * 7205759403792794) (2 ^ (s + 53)) hNpos hDpos hNlt hDlt
  rw [hx] at herr
  have habs := (abs_le.mp herr).2
  have htwq2 : (tw:ℚ) ≤ 4294967296 := by exact_mod_cast h32
  have hXle : (tw : ℚ) * 7205759403792794 / 2 ^ (53 : ℕ) ≤ ((4 * tw / 5 : ℕ) : ℚ) + 9/10 := by
    rw [div_le_iff (by norm_num : (0:ℚ) < 2 ^ (53:ℕ))]
    norm_num
    linarith [hknat, htwq2]
  have hXtw : (tw : ℚ) * 7205759403792794 / 2 ^ (53 : ℕ) ≤ (tw:ℚ) := by
    rw [div_le_iff (by norm_num : (0:ℚ) < 2 ^ (53:ℕ))]
    nlinarith [htw0]
  have hz : (2:ℚ) ^ (-53 : ℤ) = ((2:ℚ) ^ (53:ℕ))⁻¹ := by
    rw [show (-53 : ℤ) = -(53:ℕ) by norm_num, zpow_neg, zpow_natCast]
  have hsm : (tw : ℚ) * 7205759403792794 / 2 ^ (53 : ℕ) * 2 ^ (-53 : ℤ) ≤ 1/10 := by
    rw [hz]
    have hXnn : (0:ℚ) ≤ (tw : ℚ) * 7205759403792794 / 2 ^ (53 : ℕ) := by positivity
    have h2 : (tw : ℚ) * 7205759403792794 / 2 ^ (53 : ℕ) * ((2:ℚ) ^ (53:ℕ))⁻¹
        ≤ (2 ^ (32:ℕ) : ℚ) * ((2:ℚ) ^ (53:ℕ))⁻¹ := by
      apply mul_le_mul_of_nonneg_right (le_trans hXtw htwq) (by positivity)
    calc (tw : ℚ) * 7205759403792794 / 2 ^ (53 : ℕ) * ((2:ℚ) ^ (53:ℕ))⁻¹
        ≤ (2 ^ (32:ℕ) : ℚ) * ((2:ℚ) ^ (53:ℕ))⁻¹ := h2
      _ ≤ 1/10 := by norm_num
  have hfin : pfVal (dround (tw * 2 ^ s * 7205759403792794) (2 ^ (s + 53)))
      < ((4 * tw / 5 : ℕ) : ℚ) + 1 := by linarith [habs, hXle, hsm]
  rw [pfFloor_spec]
  have hge : 4 * tw / 5 ≤ ⌊pfVal (dround (tw * 2 ^ s * 7205759403792794) (2 ^ (s + 53)))⌋₊ :=
    Nat.le_floor h1
  have hlt : ⌊pfVal (dround (tw * 2 ^ s * 7205759403792794) (2 ^ (s + 53)))⌋₊ < 4 * tw / 5 + 1 := by
    rw [Nat.floor_lt (le_trans (Nat.cast_nonneg _) h1)]
    push_cast
    push_cast at hfin
    linarith [hfin]
  omega

/-- `pyCap` of any word count up to `2 ^ 32`, including zero. -/
theorem pyCap_eq' (tw : ℕ) (h32 : tw ≤ 2 ^ 32) : pyCap tw = 4 * tw / 5 := by
  rcases Nat.eq_zero_or_pos tw with h0 | hpos
  · subst h0; decide
  · exact pyCap_eq tw hpos h32

/-- The raw interpolation table: `int(50 + (p / 100.0) * 700.0)` agrees with
the exact value `50 + 7 * p` at every percentage except `p = 57`, where
binary64 rounding gives `448.99999999999994` and truncation yields `448`. -/
theorem pyRawTarget_table :
    ∀ p : ℕ, p < 101 → 10 ≤ p →
      pyRawTarget p = if p = 57 then 448 else 50 + 7 * p := by decide

theorem rawTable_mono (p q : ℕ) (hpq : p ≤ q) :
    (if p = 57 then 448 else 50 + 7 * p) ≤ (if q = 57 then 448 else 50 + 7 * q) := by
  split_ifs <;> omega

/-- C1 (amended): for every percentage `p` in `[10, 100]` and every source
word count `tw ≤ 2 ^ 32`, the extractive target word count equals
`min (50 + 7 * p) (4 * tw / 5)` — except at `p = 57`, where binary64
evaluation of `int(50 + (57 / 100.0) * 700.0)` yields `448` rather than the
exact `449`; the target is monotonically non-decreasing in `p` and never
exceeds 80% of the source word count. -/
theorem c1_extractive_target_words (p tw : ℕ) (hp1 : 10 ≤ p) (hp2 : p ≤ 100)
    (htw : tw ≤ 2 ^ 32) :
    extractiveTargetWords p tw
      = min (if p = 57 then 448 else 50 + 7 * p) (4 * tw / 5) ∧
    (∀ q, p ≤ q → q ≤ 100 →
      extractiveTargetWords p tw ≤ extractiveTargetWords q tw) ∧
    5 * extractiveTargetWords p tw ≤ 4 * tw := by
  have hcap : pyCap tw = 4 * tw / 5 := pyCap_eq' tw htw
  refine ⟨?_, ?_, ?_⟩
  · simp only [extractiveTargetWords]
    rw [hcap, pyRawTarget_table p (by omega) hp1]
  · intro q hq1 hq2
    simp only [extractiveTargetWords]
    rw [hcap, pyRawTarget_table p (by omega) hp1,
      pyRawTarget_table q (by omega) (by omega)]
    exact min_le_min (rawTable_mono p q hq1) (le_refl _)
  · simp only [extractiveTargetWords]
    rw [hcap]
    have h1 : min (pyRawTarget p) (4 * tw / 5) ≤ 4 * tw / 5 := min_le_right _ _
    omega

theorem c1_extractive_target_words_witness :
    extractiveTargetWords 50 1000
        = min (if 50 = 57 then 448 else 50 + 7 * 50) (4 * 1000 / 5) ∧
    (∀ q, 50 ≤ q → q ≤ 100 →
      extractiveTargetWords 50 1000 ≤ extractiveTargetWords q 1000) ∧
    5 * extractiveTargetWords 50 1000 ≤ 4 * 1000 :=
  c1_extractive_target_words 50 1000 (by decide) (by decide) (by decide)

/-- Counterexample to C1 as stated: at `p = 57` the code computes
`int(50 + (57 / 100.0) * 700.0) = 448`, one less than the exact linear
interpolation `50 + 57 * (750 - 50) / 100 = 449`, so the computed target is
not the claimed interpolation value. -/
theorem c1_float_dip_counterexample :
    extractiveTargetWords 57 10000 = 448 ∧
    448 ≠ min (50 + 57 * (750 - 50) / 100) (4 * 10000 / 5) :=
  ⟨by decide, by decide⟩

end InstaBrief
